import Mathlib

/-!
Verification of the best-fit allocator `src/lib/libast/vmalloc/vmbest.c`
(ksh 93u+m, vmalloc method `Vmbest`).

The development shallowly embeds the allocator over a structured heap model:

* a block is its raw size word (body size in the upper bits, the three
  low tag bits BUSY/PFREE/JUNK), its second header word (the segment
  back-pointer) and the value of the last machine word of its body (the
  self-reference slot of free blocks);
* a segment is a base address together with the list of its blocks in
  physical order, the trailing sentinel block included as the final
  element; block addresses are recovered by walking the list, exactly as
  the C code walks with `DATA(b) + (SIZE(b)&~BITS)`;
* the region data (`Vmdata_t`) keeps the segment list (head = bottom
  segment), the last-freed slot `free`, the wilderness pointer `wild`,
  the splay tree `root` (mirrored as an inductive tree of block
  addresses with the equal-size chains as lists), the tiny lists, the
  cache lists, the `pool` estimator, the arena increment `incr` and the
  region lock counter.

The header `vmhdr.h` is not part of the sources; the layout constants and
the small macros taken from it are modelled from the spec and are marked
as such.  Bitwise operations on size words are rendered arithmetically:
`w & BITS` is `w % 8`, `w & ~BITS` is `w - w % 8`, and setting/clearing a
single tag bit tests the bit first, which coincides with `|=`/`&= ~`.
-/

namespace Vmbest

/-- Modelled from the spec: machine word size in bytes (64-bit platform). -/
def WORDSIZE : Nat := 8

/-- Modelled from the spec: the alignment granule (a power of two, a
multiple of `BITS+1 = 8`, dividing the header and minimal body sizes). -/
def ALIGN : Nat := 16

/-- Modelled from the spec: `sizeof(Head_t)`, the block header size. -/
def HEADSIZE : Nat := 16

/-- Modelled from the spec: `sizeof(Body_t)`, the minimal body size,
room for the link/left pointers and the trailing self-reference. -/
def BODYSIZE : Nat := 16

/-- Modelled from the spec: size of the tiniest class; `INDEX TINYSIZE = 0`. -/
def TINYSIZE : Nat := 16

/-- Modelled from the spec: number of tiny free lists. -/
def S_TINY : Nat := 7

/-- Modelled from the spec: blocks smaller than this go to the tiny lists. -/
def MAXTINY : Nat := (S_TINY + 1) * ALIGN

/-- Modelled from the spec: index of the catch-all cache bucket; the
cache array has `S_CACHE + 1` buckets. -/
def S_CACHE : Nat := 7

/-- Modelled from the spec: blocks smaller than this are cached by size. -/
def MAXCACHE : Nat := (S_CACHE + 1) * ALIGN

/-- The BUSY tag bit (low bit of the size word). -/
def BUSY : Nat := 1

/-- The PFREE tag bit: the physically preceding block is free. -/
def PFREE : Nat := 2

/-- The JUNK tag bit: freed but not yet reclaimed (only with BUSY). -/
def JUNK : Nat := 4

/-- All three tag bits. -/
def BITS : Nat := 7

/-- Modelled from the spec: resize flag COPY. -/
def VM_RSCOPY : Nat := 1

/-- Modelled from the spec: resize flag MOVE. -/
def VM_RSMOVE : Nat := 2

/-- Modelled from the spec: resize flag ZERO. -/
def VM_RSZERO : Nat := 4

/-- `COMPACT` factor from vmbest.c line 39. -/
def COMPACT : Nat := 8

/-- Modelled from the spec: `_Vmpagesize`. -/
def PAGESIZE : Nat := 4096

/-- `w & ~BITS`: the body size encoded in a size word. -/
def CLRB (w : Nat) : Nat := w - w % 8

/-- `ISBUSY(w)`. -/
def ISBUSY (w : Nat) : Bool := w % 2 = 1

/-- `ISPFREE(w)`. -/
def ISPFREE (w : Nat) : Bool := w / 2 % 2 = 1

/-- `ISJUNK(w)`. -/
def ISJUNK (w : Nat) : Bool := w / 4 % 2 = 1

/-- `ISBITS(w)`: some tag bit is set. -/
def ISBITS (w : Nat) : Bool := w % 8 ≠ 0

/-- `SETBUSY(w)`, i.e. `w |= BUSY`. -/
def SETBUSY (w : Nat) : Nat := if ISBUSY w then w else w + BUSY

/-- `SETPFREE(w)`, i.e. `w |= PFREE`. -/
def SETPFREE (w : Nat) : Nat := if ISPFREE w then w else w + PFREE

/-- `SETJUNK(w)`, i.e. `w |= JUNK`. -/
def SETJUNK (w : Nat) : Nat := if ISJUNK w then w else w + JUNK

/-- `CLRPFREE(w)`, i.e. `w &= ~PFREE`. -/
def CLRPFREE (w : Nat) : Nat := if ISPFREE w then w - PFREE else w

/-- `CLRJUNK(w)`, i.e. `w &= ~JUNK`. -/
def CLRJUNK (w : Nat) : Nat := if ISJUNK w then w - JUNK else w

/-- Modelled from the spec: tiny-list index `(size/ALIGN) - 1`; tag bits
do not change the result because `ALIGN` is a multiple of 8. -/
def INDEX (s : Nat) : Nat := s / ALIGN - 1

/-- Modelled from the spec: cache bucket of a freed block of size `s`. -/
def C_INDEX (s : Nat) : Nat := if s < MAXCACHE then INDEX s else S_CACHE

/-- `ROUND(x,y)`: round `x` up to a multiple of `y` (total: identity at 0). -/
def ROUND (x y : Nat) : Nat := if y = 0 then x else (x + y - 1) / y * y

/-- Is a block of this size in the tiniest class (its segment word is
used for the list back-link instead of the segment pointer)? -/
def TINIEST (s : Nat) : Bool := CLRB s = TINYSIZE

/-- One block: raw size word, segment back-pointer word, and the content
of the last machine word of the body (the self-reference slot). -/
structure Blk where
  word : Nat
  segw : Nat
  selfw : Nat
  deriving Repr, DecidableEq

/-- One segment: address of its first block header and the blocks in
physical order.  The trailing sentinel (size 0, BUSY) is the final list
element; real blocks are all the previous ones. -/
structure Seg where
  base : Nat
  blocks : List Blk
  deriving Repr, DecidableEq

/-- Address of the block that follows the block at `a`. -/
def nextAddr (a : Nat) (b : Blk) : Nat := a + HEADSIZE + CLRB b.word

/-- Address of a segment's sentinel block (`seg->baddr - sizeof(Head_t)`). -/
def Seg.sentAddr (s : Seg) : Nat :=
  (s.blocks.dropLast).foldl (fun a b => nextAddr a b) s.base

/-- `seg->baddr`: one header past the sentinel. -/
def Seg.baddr (s : Seg) : Nat :=
  s.blocks.foldl (fun a b => nextAddr a b) s.base

/-- The `(address, block)` pairs of a segment suffix starting at `a`. -/
def entriesAux : Nat → List Blk → List (Nat × Blk)
  | _, [] => []
  | a, b :: bs => (a, b) :: entriesAux (nextAddr a b) bs

/-- The `(address, block)` pairs of a segment, sentinel included. -/
def Seg.entries (s : Seg) : List (Nat × Blk) := entriesAux s.base s.blocks

/-- Look up the block at address `a` in a block run starting at `a0`. -/
def findW : Nat → Nat → List Blk → Option Blk
  | _, _, [] => none
  | a0, a, b :: bs => if a0 = a then some b else findW (nextAddr a0 b) a bs

/-- Replace the block at address `a` by `g` applied to it. -/
def upd1 : Nat → Nat → (Blk → Blk) → List Blk → List Blk
  | _, _, _, [] => []
  | a0, a, g, b :: bs =>
      if a0 = a then g b :: bs else b :: upd1 (nextAddr a0 b) a g bs

/-- Split the block at address `a` into a head with size word `hw` and a
remainder with size word `rw`.  The head keeps the segment word; the
remainder inherits the segment word (every split site performs
`SEG(np) = SEG(tp)`) and physically owns the old trailing self word.
The head's trailing word becomes untracked caller data (0). -/
def split2 : Nat → Nat → Nat → Nat → List Blk → List Blk
  | _, _, _, _, [] => []
  | a0, a, hw, rw, b :: bs =>
      if a0 = a then
        { word := hw, segw := b.segw, selfw := 0 } ::
        { word := rw, segw := b.segw, selfw := b.selfw } :: bs
      else b :: split2 (nextAddr a0 b) a hw rw bs

/-- Helper of `mergeRun`: drop the blocks covered by a merged run of
`sz` body bytes, returning the remaining suffix and the last dropped
block's trailing word (which the merged block physically owns). -/
def consumeRun (sz : Nat) : Nat → List Blk → List Blk × Nat
  | _, [] => ([], 0)
  | covered, c :: cs =>
      let step := HEADSIZE + CLRB c.word
      if covered + step < sz + HEADSIZE then consumeRun sz (covered + step) cs
      else (cs, c.selfw)

/-- Coalesce the run of blocks starting at `a` whose bodies and inner
headers make up `sz` body bytes into one block with clean size word
`sz`: the single physical write `SIZE(fp) = size` that completes a merge
in `bestreclaim`. -/
def mergeRun : Nat → Nat → Nat → List Blk → List Blk
  | _, _, _, [] => []
  | a0, a, sz, b :: bs =>
      if a0 = a then
        let (rest, lastSelf) := consumeRun sz 0 (b :: bs)
        { word := sz, segw := b.segw, selfw := lastSelf } :: rest
      else b :: mergeRun (nextAddr a0 b) a sz bs

/-- The splay free tree, mirrored structurally: each node is the address
of the in-tree block together with the addresses chained off it by
`LINK` (the equal-size chain). -/
inductive Btree where
  | nil : Btree
  | node (addr : Nat) (chain : List Nat) (l r : Btree) : Btree
  deriving Repr, DecidableEq

/-- Number of nodes of the mirrored tree (used as recursion fuel). -/
def Btree.size : Btree → Nat
  | .nil => 0
  | .node _ _ l r => 1 + l.size + r.size

/-- The region data (`Vmdata_t`): lock counter, growth increment,
average-free-size estimator, segment list (head = bottom segment),
last-freed slot, wilderness pointer, free tree, tiny lists and cache
lists (addresses of block headers throughout). -/
structure Vmdata where
  lock : Nat
  incr : Nat
  pool : Nat
  segs : List Seg
  free : Option Nat
  wild : Option Nat
  root : Btree
  tiny : List (List Nat)
  cache : List (List Nat)
  deriving Repr, DecidableEq

/-- Look up the block at address `a` in a list of segments. -/
def findInSegs (a : Nat) : List Seg → Option Blk
  | [] => none
  | s :: ss =>
      match findW s.base a s.blocks with
      | some b => some b
      | none => findInSegs a ss

/-- Look up the block at address `a` in the region. -/
def Vmdata.findBlk (vd : Vmdata) (a : Nat) : Option Blk :=
  findInSegs a vd.segs

/-- The raw size word at address `a` (0 when absent). -/
def Vmdata.wordAt (vd : Vmdata) (a : Nat) : Nat :=
  ((vd.findBlk a).map Blk.word).getD 0

/-- The clean (body) size at address `a`. -/
def Vmdata.sizeAt (vd : Vmdata) (a : Nat) : Nat := CLRB (vd.wordAt a)

/-- Apply `g` to the block at address `a` in every segment run. -/
def Vmdata.upd (vd : Vmdata) (a : Nat) (g : Blk → Blk) : Vmdata :=
  { vd with segs := vd.segs.map fun s => { s with blocks := upd1 s.base a g s.blocks } }

/-- Split the block at address `a` (see `split2`). -/
def Vmdata.split (vd : Vmdata) (a hw rw : Nat) : Vmdata :=
  { vd with segs := vd.segs.map fun s => { s with blocks := split2 s.base a hw rw s.blocks } }

/-- Coalesce the run at `a` into one free block of size `sz` (see `mergeRun`). -/
def Vmdata.merge (vd : Vmdata) (a sz : Nat) : Vmdata :=
  { vd with segs := vd.segs.map fun s => { s with blocks := mergeRun s.base a sz s.blocks } }

/-- Prepend address `a` to cache bucket `n` (`LINK(b) = CACHE(vd)[n];
CACHE(vd)[n] = b`). -/
def Vmdata.pushCache (vd : Vmdata) (n a : Nat) : Vmdata :=
  { vd with cache := vd.cache.set n (a :: vd.cache.getD n []) }

/-- Prepend address `a` to tiny bucket `n` (with the tiniest double link
kept implicitly by the list). -/
def Vmdata.pushTiny (vd : Vmdata) (n a : Nat) : Vmdata :=
  { vd with tiny := vd.tiny.set n (a :: vd.tiny.getD n []) }

/-- Replace the last-freed slot. -/
def Vmdata.setFree (vd : Vmdata) (x : Option Nat) : Vmdata := { vd with free := x }

/-- Replace the wilderness pointer. -/
def Vmdata.setWild (vd : Vmdata) (x : Option Nat) : Vmdata := { vd with wild := x }

/-- Replace the tree root. -/
def Vmdata.setRoot (vd : Vmdata) (t : Btree) : Vmdata := { vd with root := t }

/-- Replace the pool estimator. -/
def Vmdata.setPool (vd : Vmdata) (p : Nat) : Vmdata := { vd with pool := p }

/-- Replace the arena increment. -/
def Vmdata.setIncr (vd : Vmdata) (n : Nat) : Vmdata := { vd with incr := n }

/-- Replace the segment list. -/
def Vmdata.setSegs (vd : Vmdata) (ss : List Seg) : Vmdata := { vd with segs := ss }

/-- `SETLOCK(vm, local)`: the region lock counter (spec section 5).
The C parameter `local` is spelled `locl` throughout (keyword clash). -/
def setLock (vd : Vmdata) (locl : Bool) : Vmdata :=
  if locl then vd else { vd with lock := vd.lock + 1 }

/-- `CLRLOCK(vm, local)`. -/
def clrLock (vd : Vmdata) (locl : Bool) : Vmdata :=
  if locl then vd else { vd with lock := vd.lock - 1 }

/-- The raw-memory provider interface (spec section 6):
`(current_address, current_size, new_size) -> address or nil`. -/
def MemF : Type := Nat → Nat → Nat → Option Nat

/-- A raw-memory discipline: provider callback and rounding granule. -/
structure Vmdisc where
  memf : MemF
  round : Nat

@[simp] theorem setLock_segs (vd : Vmdata) (l : Bool) : (setLock vd l).segs = vd.segs := by
  unfold setLock; split <;> rfl

@[simp] theorem setLock_free (vd : Vmdata) (l : Bool) : (setLock vd l).free = vd.free := by
  unfold setLock; split <;> rfl

@[simp] theorem setLock_pool (vd : Vmdata) (l : Bool) : (setLock vd l).pool = vd.pool := by
  unfold setLock; split <;> rfl

@[simp] theorem setLock_incr (vd : Vmdata) (l : Bool) : (setLock vd l).incr = vd.incr := by
  unfold setLock; split <;> rfl

@[simp] theorem setLock_wild (vd : Vmdata) (l : Bool) : (setLock vd l).wild = vd.wild := by
  unfold setLock; split <;> rfl

@[simp] theorem setLock_cache (vd : Vmdata) (l : Bool) : (setLock vd l).cache = vd.cache := by
  unfold setLock; split <;> rfl

@[simp] theorem setLock_tiny (vd : Vmdata) (l : Bool) : (setLock vd l).tiny = vd.tiny := by
  unfold setLock; split <;> rfl

@[simp] theorem setLock_root (vd : Vmdata) (l : Bool) : (setLock vd l).root = vd.root := by
  unfold setLock; split <;> rfl

/-- `bestaddr`, non-local branch: walk the candidate segment's blocks
(`while(b < endb)`, vmbest.c lines 675-687).  The entry list carries the
sentinel as its last element, which the walk does not examine. -/
def addrWalk (addr : Nat) : List (Nat × Blk) → Int
  | [] => -1
  | [_] => -1
  | (a, b) :: rest =>
      let data := a + HEADSIZE
      let size := CLRB b.word
      if data ≤ addr ∧ addr < data + size then
        if ISJUNK b.word || !ISBUSY b.word then -1
        else ((addr - data : Nat) : Int)
      else addrWalk addr rest

/-- The candidate-segment test of `bestaddr` (lines 661-667):
`addr > SEGBLOCK(seg) && addr < endb`. -/
def segHasAddr (addr : Nat) (s : Seg) : Bool :=
  decide (s.base < addr) && decide (addr < s.sentAddr)

/-- `bestaddr` (vmbest.c lines 648-693). -/
def bestaddr (vd0 : Vmdata) (addr : Nat) (locl : Bool) : Int × Vmdata :=
  let vd := setLock vd0 locl
  let offset : Int :=
    match vd.segs.find? (segHasAddr addr) with
    | none => -1
    | some seg =>
        if locl then
          -- from bestfree or bestresize: trust the header at BLOCK(addr)
          match findW seg.base (addr - HEADSIZE) seg.blocks with
          | some b =>
              if b.segw = seg.base ∧ ISBUSY b.word ∧ ¬ISJUNK b.word then 0 else -1
          | none => -1
        else addrWalk addr seg.entries
  (offset, clrLock vd locl)

/-- First walked block whose body contains `addr` (the sentinel, final
element, is never considered). -/
def bodyAt (addr : Nat) : List (Nat × Blk) → Option (Nat × Blk)
  | [] => none
  | [_] => none
  | (a, b) :: rest =>
      if a + HEADSIZE ≤ addr ∧ addr < a + HEADSIZE + CLRB b.word then some (a, b)
      else bodyAt addr rest

/-- The external address-check, stated from the amended claim's words:
inside the body of a busy, non-junk block the result is the offset of
`addr` from the body start (0 exactly at the body start); everywhere
else it is -1. -/
def bestaddrSpec (vd : Vmdata) (addr : Nat) : Int :=
  match vd.segs.find? (segHasAddr addr) with
  | none => -1
  | some seg =>
      match bodyAt addr seg.entries with
      | none => -1
      | some (a, b) =>
          if ISJUNK b.word || !ISBUSY b.word then -1
          else ((addr - (a + HEADSIZE) : Nat) : Int)

theorem addrWalk_eq_bodyAt (addr : Nat) : ∀ l : List (Nat × Blk),
    addrWalk addr l =
      (match bodyAt addr l with
       | none => -1
       | some (a, b) =>
           if ISJUNK b.word || !ISBUSY b.word then -1
           else ((addr - (a + HEADSIZE) : Nat) : Int)) := by
  intro l
  induction l with
  | nil => rfl
  | cons x rest ih =>
      cases rest with
      | nil => rfl
      | cons y rest2 =>
          obtain ⟨a, b⟩ := x
          by_cases h : a + HEADSIZE ≤ addr ∧ addr < a + HEADSIZE + CLRB b.word
          · simp only [addrWalk, bodyAt, if_pos h]
          · simp only [addrWalk, bodyAt, if_neg h]
            exact ih

/-- A one-segment region holding a single busy, non-junk block of body
size 32 at address 1000 (body at 1016..1047), then the sentinel. -/
def c1vd : Vmdata :=
  { lock := 0, incr := 4096, pool := 0,
    segs := [⟨1000, [⟨33, 1000, 0⟩, ⟨1, 1000, 0⟩]⟩],
    free := none, wild := none, root := .nil,
    tiny := [[], [], [], [], [], [], []],
    cache := [[], [], [], [], [], [], [], []] }

/-- C1, counterexample: address 1024 lies strictly inside the body
(which starts at 1016) of a busy, non-junk block, so it is not the body
start; the external address-check nevertheless returns 8 = 1024 - 1016,
a value other than 0 and -1, contradicting the claim that -1 is
returned in every case other than a body start and that no value other
than 0 or -1 is ever returned. -/
theorem bestaddr_interior_offset_counterexample :
    (bestaddr c1vd 1024 false).fst = 8 ∧
    ((8 : Int) ≠ 0 ∧ (8 : Int) ≠ -1) := by
  constructor
  · rfl
  · decide

/-- C1, amended: for `local = false`, address-check returns the offset
of `addr` from the body start of the (unique walked) busy, non-junk
block whose body contains `addr` — in particular 0 exactly at the body
start — and -1 in every other case (no candidate segment, header bytes,
sentinel, free or junk block). -/
theorem bestaddr_eq_bestaddrSpec (vd : Vmdata) (addr : Nat) :
    (bestaddr vd addr false).fst = bestaddrSpec vd addr := by
  unfold bestaddr bestaddrSpec
  simp only [setLock_segs]
  cases h : vd.segs.find? (segHasAddr addr) with
  | none => rfl
  | some seg =>
      simp only [if_neg (by decide : ¬False)]
      exact addrWalk_eq_bodyAt addr seg.entries

/-- `vmonlist`: is `b` on the given singly linked list? -/
def vmonlist (list : List Nat) (b : Nat) : Bool := list.contains b

/-- `vmintree`: is `b` the node, on its equal-size chain, or in a
subtree?  The `LINK` chain of each node is its `chain` list. -/
def vmintree : Btree → Nat → Bool
  | .nil, _ => false
  | .node a chain l r, b =>
      a = b || chain.contains b || vmintree l b || vmintree r b

/-- `vmisfree` (vmbest.c lines 64-79). -/
def vmisfree (vd : Vmdata) (b : Nat) : Bool :=
  let w := vd.wordAt b
  if ISBITS w then false
  else if vd.wild = some b then true
  else if w < MAXTINY then vmonlist (vd.tiny.getD (INDEX w) []) b
  else if vd.root ≠ .nil then vmintree vd.root b
  else false

/-- `vmisjunk` (vmbest.c lines 82-104). -/
def vmisjunk (vd : Vmdata) (b : Nat) : Bool :=
  let w := vd.wordAt b
  if !ISBUSY w || !ISJUNK w then false
  else if vd.free = some b then true
  else if vmonlist (vd.cache.getD (C_INDEX w) []) b then true
  else if C_INDEX w < S_CACHE then vmonlist (vd.cache.getD S_CACHE []) b
  else false

/-- `vmchktree` (vmbest.c lines 107-129), including the source quirk
that the right subtree is only visited when the left one is empty. -/
def vmchktree (vd : Vmdata) : Btree → Int
  | .nil => 0
  | .node a chain l r =>
      if ISBITS (vd.wordAt a) then -1
      else if chain.any fun t => vd.wordAt t ≠ vd.wordAt a then -1
      else
        match l with
        | .node la lc ll lr =>
            if vd.wordAt la ≥ vd.wordAt a then -1
            else vmchktree vd (.node la lc ll lr)
        | .nil =>
            match r with
            | .node ra rc rl rr =>
                if vd.wordAt ra ≤ vd.wordAt a then -1
                else vmchktree vd (.node ra rc rl rr)
            | .nil => 0

/-- One step of the `_vmbestcheck` segment walk (lines 147-189) for the
block `b` at address `a` whose physical successor is `nb`; `prevSelf` is
the machine word just before `b`'s header (what `LAST(b)` reads). -/
def checkPair (vd : Vmdata) (seg : Seg) (freeb : Option Nat)
    (prevSelf a : Nat) (b nb : Blk) : Bool :=
  if !ISBUSY b.word then
    -- a completely free block
    !ISBITS b.word &&
    (ISBUSY nb.word && ISPFREE nb.word) &&
    b.selfw == a &&
    (TINIEST b.word || b.segw == seg.base) &&
    (freeb == some a || vmisfree vd a)
  else
    b.segw == seg.base &&
    !ISPFREE nb.word &&
    (!ISPFREE b.word || freeb == some prevSelf || vmisfree vd prevSelf) &&
    (!ISJUNK b.word || vmisjunk vd a)

/-- The `_vmbestcheck` walk over one segment (`for(; b < endb; ...)`):
the sentinel, last entry, is the stop condition and is not checked. -/
def checkSegWalk (vd : Vmdata) (seg : Seg) (freeb : Option Nat) :
    Nat → List (Nat × Blk) → Bool
  | _, [] => true
  | _, [_] => true
  | prevSelf, (a, b) :: (a2, b2) :: rest =>
      checkPair vd seg freeb prevSelf a b b2 &&
      checkSegWalk vd seg freeb b.selfw ((a2, b2) :: rest)

/-- `_vmbestcheck` (vmbest.c lines 131-193).  The `CHECK()` runtime
debug gate is elided: this is the verification pass itself.  The word
before a segment's first block is outside the segment; its `LAST` reads
are modelled as 0. -/
def vmbestcheck (vd : Vmdata) (freeb : Option Nat) : Int :=
  if vd.root ≠ .nil ∧ vmchktree vd vd.root < 0 then -1
  else if vd.segs.all fun seg => checkSegWalk vd seg freeb 0 seg.entries then 0
  else -1

theorem checkSegWalk_pair (vd : Vmdata) (seg : Seg) (freeb : Option Nat) :
    ∀ (l : List (Nat × Blk)) (ps : Nat), checkSegWalk vd seg freeb ps l = true →
      ∀ (n : Nat) (a : Nat) (b : Blk) (x : Nat × Blk),
        l.get? n = some (a, b) → l.get? (n + 1) = some x →
        ∃ ps', checkPair vd seg freeb ps' a b x.2 = true := by
  intro l
  induction l with
  | nil => intro ps _ n a b x h1 _; simp [List.get?] at h1
  | cons p rest ih =>
      cases rest with
      | nil =>
          intro ps _ n a b x _ h2
          cases n <;> simp [List.get?] at h2
      | cons q rest2 =>
          intro ps hw n a b x h1 h2
          obtain ⟨p1, p2⟩ := p
          rw [checkSegWalk, Bool.and_eq_true] at hw
          cases n with
          | zero =>
              simp [List.get?] at h1 h2
              obtain ⟨rfl, rfl⟩ := h1
              subst h2
              exact ⟨ps, hw.1⟩
          | succ m =>
              simp only [List.get?] at h1 h2
              exact ih p2.selfw hw.2 m a b x h1 h2

/-- C3: in a state accepted by the allocator's own consistency pass
(`_vmbestcheck`), every free (non-busy) walked block has no BUSY, JUNK
or PFREE bit in its size word, stores a self-reference equal to its own
address in the last word of its body, and its physical successor is
busy with PFREE set. -/
theorem free_block_invariant (vd : Vmdata) (seg : Seg) (n a a2 : Nat)
    (b nb : Blk)
    (hchk : vmbestcheck vd none = 0)
    (hseg : seg ∈ vd.segs)
    (h1 : seg.entries.get? n = some (a, b))
    (h2 : seg.entries.get? (n + 1) = some (a2, nb))
    (hfree : ISBUSY b.word = false) :
    b.word % 8 = 0 ∧ b.selfw = a ∧ ISBUSY nb.word = true ∧ ISPFREE nb.word = true := by
  unfold vmbestcheck at hchk
  split at hchk
  · exact absurd hchk (by decide)
  · split at hchk
    case isTrue hall =>
      have hwalk := List.all_eq_true.mp hall seg hseg
      obtain ⟨ps, hp⟩ :=
        checkSegWalk_pair vd seg none seg.entries 0 hwalk n a b (a2, nb) h1 h2
      rw [checkPair] at hp
      rw [hfree] at hp
      simp only [Bool.not_false, if_true, Bool.and_eq_true] at hp
      obtain ⟨⟨⟨⟨hbits, hnb⟩, hself⟩, _⟩, _⟩ := hp
      refine ⟨?_, ?_, hnb.1, hnb.2⟩
      · simpa [ISBITS] using hbits
      · simpa using hself
    case isFalse => exact absurd hchk (by decide)

/-- A one-segment region with one free block (address 1000, size 16,
self-reference in place, on the tiniest list) followed by the sentinel
(BUSY with PFREE set): it passes `_vmbestcheck`. -/
def c3vd : Vmdata :=
  { lock := 0, incr := 4096, pool := 0,
    segs := [⟨1000, [⟨16, 1000, 1000⟩, ⟨3, 1000, 0⟩]⟩],
    free := none, wild := none, root := .nil,
    tiny := [[1000], [], [], [], [], [], []],
    cache := [[], [], [], [], [], [], [], []] }

theorem free_block_invariant_witness :
    vmbestcheck c3vd none = 0 ∧
    ((16 : Nat) % 8 = 0 ∧ (1000 : Nat) = 1000 ∧
      ISBUSY (3 : Nat) = true ∧ ISPFREE (3 : Nat) = true) := by
  refine ⟨by decide, ?_⟩
  have h := free_block_invariant c3vd ⟨1000, [⟨16, 1000, 1000⟩, ⟨3, 1000, 0⟩]⟩
    0 1000 1032 ⟨16, 1000, 1000⟩ ⟨3, 1000, 0⟩
    (by decide) (by decide) (by decide) (by decide) (by decide)
  exact h

/-- Left-spine depth, the termination measure of `rotMin`. -/
def leftDepth : Btree → Nat
  | .nil => 0
  | .node _ _ l _ => 1 + leftDepth l

/-- `while((t = LEFT(root))) RROTATE(root, t)`: rotate the least node of
a tree to the root (its LEFT becomes nil). -/
def rotMin : Btree → Btree
  | .nil => .nil
  | .node a ch .nil r => .node a ch .nil r
  | .node a ch (.node a2 ch2 l2 r2) r => rotMin (.node a2 ch2 l2 (.node a ch r2 r))
  termination_by t => leftDepth t
  decreasing_by simp [leftDepth]

/-- The pending hooks of the top-down splay: nodes attached to the
accumulator trees with one child still open, innermost first. -/
abbrev Spine := List (Nat × List Nat × Btree)

/-- Reattach the left accumulator: fill the innermost open RIGHT hook
with `x` and fold outwards (`RIGHT(l) = x` and the L tree above it). -/
def assembleL (x : Btree) : Spine → Btree
  | [] => x
  | (a, c, lt) :: rest => assembleL (.node a c lt x) rest

/-- Reattach the right accumulator (open LEFT hooks). -/
def assembleR (x : Btree) : Spine → Btree
  | [] => x
  | (a, c, rt) :: rest => assembleR (.node a c x rt) rest

/-- The top-down splay loop of `bestsearch` (vmbest.c lines 236-272):
walk from the root comparing `size` with the node sizes (read from the
heap), performing the zig / zig-zig rotations and attaching skipped
branches to the left/right spines.  Returns the found node (isolated as
address, chain, children) or none, together with the spines.  The fuel
exceeds the tree size, so it never runs out on the structural walk. -/
def splayLoop (vd : Vmdata) (size : Nat) :
    Nat → Btree → Spine → Spine → Option (Nat × List Nat × Btree × Btree) × Spine × Spine
  | 0, _, ls, rs => (none, ls, rs)
  | _ + 1, .nil, ls, rs => (none, ls, rs)
  | fuel + 1, .node a ch l r, ls, rs =>
      let s := vd.wordAt a
      if size = s then (some (a, ch, l, r), ls, rs)
      else if size < s then
        match l with
        | .nil => (none, ls, (a, ch, r) :: rs)
        | .node ta tch tl tr =>
            let ts := vd.wordAt ta
            if size ≤ ts then
              -- RROTATE(root, t)
              if size = ts then (some (ta, tch, tl, .node a ch tr r), ls, rs)
              else splayLoop vd size fuel tl ls ((ta, tch, .node a ch tr r) :: rs)
            else
              -- LLINK(l, t); t = RIGHT(t); then RLINK(r, root)
              splayLoop vd size fuel tr ((ta, tch, tl) :: ls) ((a, ch, r) :: rs)
      else
        match r with
        | .nil => (none, (a, ch, l) :: ls, rs)
        | .node ta tch tl tr =>
            let ts := vd.wordAt ta
            if size ≥ ts then
              -- LROTATE(root, t)
              if size = ts then (some (ta, tch, .node a ch l tl, tr), ls, rs)
              else splayLoop vd size fuel tr ((ta, tch, .node a ch l tl) :: ls) rs
            else
              -- RLINK(r, t); t = LEFT(t); then LLINK(l, root)
              splayLoop vd size fuel tl ((a, ch, l) :: ls) ((ta, tch, tr) :: rs)

/-- Lines 290-301 of `bestsearch`: the found (or least-larger) node is
detached; a chain member is promoted in its place, otherwise the left
tree is grafted below the least node of the right tree. -/
def splayFinish (vd : Vmdata) (a : Nat) (ch : List Nat) (ltree rtree : Btree) :
    Option Nat × Vmdata :=
  match ch with
  | rr :: rest => (some a, { vd with root := .node rr rest ltree rtree })
  | [] =>
      match rotMin rtree with
      | .node a2 c2 _ r2 => (some a, { vd with root := .node a2 c2 ltree r2 })
      | .nil => (some a, { vd with root := ltree })

/-- Lines 274-307 of `bestsearch`: reassemble the spines around the
found node, or extract the least element of the right tree when nothing
fit exactly. -/
def splayAssemble (vd : Vmdata)
    (found : Option (Nat × List Nat × Btree × Btree)) (ls rs : Spine) :
    Option Nat × Vmdata :=
  match found with
  | some (a, ch, fl, fr) => splayFinish vd a ch (assembleL fl ls) (assembleR fr rs)
  | none =>
      let ltree := assembleL Btree.nil ls
      match rotMin (assembleR Btree.nil rs) with
      | .node a ch _ r2 => splayFinish vd a ch ltree r2
      | .nil => (none, { vd with root := ltree })

/-- Helper of the tiniest branch of `bestsearch` (lines 219-228): the
segment containing a given address, scanning the segment list.  The
`Seg_t` bookkeeping at the segment front is collapsed into `base`. -/
def segBaseOf (vd : Vmdata) (a : Nat) : Nat :=
  match vd.segs with
  | [] => 0
  | s :: rest =>
      if rest.isEmpty then s.base
      else ((vd.segs.find? fun sg => decide (sg.base ≤ a) && decide (a < sg.baddr)).map
              Seg.base).getD 0

/-- `bestsearch` (vmbest.c lines 202-308): find-and-delete by size in
the splay tree; with `wanted` at the tiniest size it instead detaches
that block from the tiniest list and refreshes its segment pointer. -/
def bestsearch (vd : Vmdata) (size : Nat) (wanted : Option Nat) : Option Nat × Vmdata :=
  match wanted with
  | some rootA =>
      if size = TINYSIZE then
        let vd := { vd with tiny := vd.tiny.set 0 ((vd.tiny.getD 0 []).erase rootA) }
        let sb := segBaseOf vd rootA
        (some rootA, vd.upd rootA fun b => { b with segw := sb })
      else
        let (found, ls, rs) := splayLoop vd size (vd.root.size + 1) vd.root [] []
        splayAssemble vd found ls rs
  | none =>
      let (found, ls, rs) := splayLoop vd size (vd.root.size + 1) vd.root [] []
      splayAssemble vd found ls rs

/-- Graft a left tree below the least node of a right tree (the reassembly
of lines 295-301). -/
def joinLR (l r : Btree) : Btree :=
  match rotMin r with
  | .node a ch _ r2 => .node a ch l r2
  | .nil => l

/-- Unlink the specific block `a` from the mirrored free tree: a chain
member is unlinked from its chain, a chain head is replaced by the next
member, a chainless node is spliced out. -/
def treeErase (a : Nat) : Btree → Btree
  | .nil => .nil
  | .node n ch l r =>
      if n = a then
        match ch with
        | c :: rest => .node c rest l r
        | [] => joinLR l r
      else if ch.contains a then .node n (ch.erase a) l r
      else .node n ch (treeErase a l) (treeErase a r)

/-- Modelled from the spec: the `REMOVE`/`UNLINK` macros of the missing
header `vmhdr.h` (spec sections 4.3-4.4): unlink a known-free block from
its home — the tiniest list through the `bestsearch` unlink branch,
another tiny list by erasure, or the free tree. -/
def removeFree (vd : Vmdata) (a : Nat) : Vmdata :=
  let s := vd.sizeAt a
  if s < MAXTINY then
    if s = TINYSIZE then (bestsearch vd s (some a)).2
    else { vd with tiny := vd.tiny.set (INDEX s) ((vd.tiny.getD (INDEX s) []).erase a) }
  else { vd with root := treeErase a vd.root }

/-- The leaf insertion of `bestreclaim` (vmbest.c lines 417-456):
descend by size; an equal-size block is pushed at the head of the
node's chain (`LINK(np) = fp`). -/
def treeInsert (vd : Vmdata) (size fpA : Nat) : Btree → Btree
  | .nil => .node fpA [] .nil .nil
  | .node n ch l r =>
      let s := vd.wordAt n
      if s > size then .node n ch (treeInsert vd size fpA l) r
      else if s < size then .node n ch l (treeInsert vd size fpA r)
      else .node n (fpA :: ch) l r

/-- The machine word immediately before the header at `a` — what
`LAST(b)` dereferences: the trailing self word of the physical
predecessor (0 when there is none, an out-of-segment read in C). -/
def prevSelfW (a : Nat) : Nat → List Blk → Option Nat
  | _, [] => none
  | a0, b :: bs =>
      if nextAddr a0 b = a then some b.selfw else prevSelfW a (nextAddr a0 b) bs

/-- `LAST(b)` over the whole region. -/
def prevSelfOf (vd : Vmdata) (a : Nat) : Nat :=
  (vd.segs.foldl (fun acc s => acc.orElse fun _ => prevSelfW a s.base s.blocks) none).getD 0

/-- `seg->baddr` of the bottom segment. -/
def bottomBaddr (vd : Vmdata) : Nat :=
  match vd.segs with
  | [] => 0
  | s :: _ => s.baddr

/-- Total block count plus one: fuel bound for the merge walks. -/
def reclaimFuel (vd : Vmdata) : Nat :=
  vd.segs.foldl (fun n s => n + s.blocks.length) 1

/-- The forward-merge loop of `bestreclaim` (lines 359-377): absorb the
physical successor while it is free (detach it from its home) or junk
(lower the terminal cache bucket `c`, the block is swallowed when the
merged size word is written); stop at a busy non-junk block. -/
def reclaimFwd (fpA : Nat) : Nat → Nat → Nat → Vmdata → Nat × Nat × Vmdata
  | 0, size, c, vd => (size, c, vd)
  | fuel + 1, size, c, vd =>
      let npA := fpA + size + HEADSIZE
      match vd.findBlk npA with
      | none => (size, c, vd)
      | some np =>
          let s := np.word
          if !ISBUSY s then
            let vd := if vd.wild = some npA then vd.setWild none
                      else removeFree vd npA
            reclaimFwd fpA fuel (size + s + HEADSIZE) c vd
          else if ISJUNK s then
            let c := if C_INDEX s < c then C_INDEX s else c
            -- SIZE(np) = 0: np is absorbed when the merged size word is
            -- written; its stale cache entry then fails the junk test
            reclaimFwd fpA fuel (size + CLRB s + HEADSIZE) c vd
          else (size, c, vd)

/-- Processing of one cached block by `bestreclaim` (lines 328-456):
skip if no longer junk, merge backward over a PFREE predecessor, merge
forward, write the merged free block (clean size word, PFREE on the
successor, self-reference), then hand it to the caller (`wanted`), the
wilderness, a tiny list or the tree. -/
def reclaimBlock (wanted : Option Nat) (vd : Vmdata) (c : Nat) (saw : Bool)
    (fpA0 : Nat) : Vmdata × Nat × Bool :=
  match vd.findBlk fpA0 with
  | none => (vd, c, saw)
  | some fp =>
      let size0 := fp.word
      if !ISJUNK size0 then (vd, c, saw)
      else
        let step1 : Nat × Nat × Vmdata :=
          if ISPFREE size0 then
            let pA := prevSelfOf vd fpA0
            let s := vd.wordAt pA
            (pA, CLRB size0 + s + HEADSIZE, removeFree vd pA)
          else (fpA0, CLRB size0, vd)
        match step1 with
        | (fpA, size1, vd) =>
            match reclaimFwd fpA (reclaimFuel vd) size1 c vd with
            | (size, c, vd) =>
                let vd := vd.merge fpA size
                let npA := fpA + HEADSIZE + size
                let vd := vd.upd npA fun b => { b with word := SETPFREE b.word }
                let vd := vd.upd fpA fun b => { b with selfw := fpA }
                if wanted = some fpA then (vd, c, true)
                else if npA + HEADSIZE ≥ bottomBaddr vd then
                  (vd.setWild (some fpA), c, saw)
                else if size < MAXTINY then (vd.pushTiny (INDEX size) fpA, c, saw)
                else (vd.setRoot (treeInsert vd size fpA vd.root), c, saw)

/-- Scan of one detached cache list (`while((fp = list))`). -/
def reclaimList (wanted : Option Nat) : List Nat → Vmdata → Nat → Bool → Vmdata × Nat × Bool
  | [], vd, c, saw => (vd, c, saw)
  | fpA :: rest, vd, c, saw =>
      match reclaimBlock wanted vd c saw fpA with
      | (vd, c, saw) => reclaimList wanted rest vd c saw

/-- The outer bucket loop of `bestreclaim` (`for(n = S_CACHE; n >= c; --n)`)
with the terminal bucket `c` lowered mid-scan by forward merges. -/
def reclaimOuter (wanted : Option Nat) : Nat → Nat → Vmdata → Bool → Vmdata × Bool
  | 0, c, vd, saw =>
      if 0 < c then (vd, saw)
      else
        match reclaimList wanted (vd.cache.getD 0 []) { vd with cache := vd.cache.set 0 [] } c saw with
        | (vd, _, saw) => (vd, saw)
  | n + 1, c, vd, saw =>
      if n + 1 < c then (vd, saw)
      else
        match reclaimList wanted (vd.cache.getD (n + 1) [])
            { vd with cache := vd.cache.set (n + 1) [] } c saw with
        | (vd, c, saw) => reclaimOuter wanted n c vd saw

/-- `bestreclaim` (vmbest.c lines 311-463). -/
def bestreclaim (vd : Vmdata) (wanted : Option Nat) (c : Nat) : Vmdata × Bool :=
  let vd :=
    match vd.free with
    | some fp => (vd.setFree none).pushCache S_CACHE fp
    | none => vd
  reclaimOuter wanted S_CACHE c vd wanted.isNone

/-- Modelled from the spec: `_Vmextend` (not among the sources; spec
section 4.7 step 5 and section 6): acquire a fresh segment covering the
request plus a block header and a sentinel, rounded to the arena
increment, from the provider; link it at the tail (the bottom segment
stays first); the new block is returned with a clean size word and the
caller marks it busy. -/
def vmextend (disc : Vmdisc) (vd : Vmdata) (size : Nat) : Option Nat × Vmdata :=
  let req := ROUND (size + 2 * HEADSIZE) (max vd.incr 1)
  match disc.memf 0 0 req with
  | none => (none, vd)
  | some base =>
      let body := req - 2 * HEADSIZE
      let seg : Seg := ⟨base, [⟨body, base, 0⟩, ⟨BUSY, base, 0⟩]⟩
      (some base, { vd with segs := vd.segs ++ [seg] })

/-- Drop `amount` bytes from the end of a segment: the last real block
shrinks, the sentinel moves down (the caller rebuilds the size word). -/
def segShrink (s : Seg) (amount : Nat) : Seg :=
  let n := s.blocks.length
  if n < 2 then s
  else
    ⟨s.base,
      s.blocks.take (n - 2) ++
        [{ s.blocks.getD (n - 2) ⟨0, 0, 0⟩ with
            word := (s.blocks.getD (n - 2) ⟨0, 0, 0⟩).word - amount },
          s.blocks.getD (n - 1) ⟨0, 0, 0⟩]⟩

/-- Modelled from the spec: `_Vmtruncate` (not among the sources; spec
section 4.11): ask the provider to shrink the segment by `size` bytes
from its end; a full-segment release unlinks the segment, a partial
release moves the segment end down; returns the bytes released (0 on
refusal). -/
def vmtruncate (disc : Vmdisc) (vd : Vmdata) (segBase size : Nat) : Nat × Vmdata :=
  match vd.segs.find? fun s => s.base = segBase with
  | none => (0, vd)
  | some seg =>
      let segsize := seg.baddr - seg.base
      if size ≥ segsize then
        match disc.memf seg.base segsize 0 with
        | some _ => (segsize, vd.setSegs (vd.segs.filter fun s => s.base ≠ segBase))
        | none => (0, vd)
      else
        match disc.memf seg.base segsize (segsize - size) with
        | some _ =>
            let newsegs := vd.segs.map fun s => if s.base = segBase then segShrink s size else s
            (size, vd.setSegs newsegs)
        | none => (0, vd)

/-- The trimming tail of the `bestcompact` segment body (lines 509-532):
clear PFREE on the sentinel, ask the provider to shrink, rebuild a
surviving fragment as a busy|junk block routed through the cache. -/
def compactTrim (disc : Vmdisc) (vd0 : Vmdata) (segBase bpA size0 : Nat)
    (seg : Seg) : Vmdata × Bool :=
  let vd := vd0.upd seg.sentAddr fun b => { b with word := CLRPFREE b.word }
  let segsize := seg.baddr - seg.base
  let reqSize := if size0 < segsize then size0 + HEADSIZE else size0
  match vmtruncate disc vd segBase reqSize with
  | (got, vd) =>
      if got > 0 ∧ got ≥ segsize then (vd, true)
      else
        let bpOkVd : Bool × Vmdata :=
          if got > 0 then
            match vd.segs.find? fun s => s.base = segBase with
            | none => (false, vd)
            | some seg2 =>
                let span := seg2.sentAddr - bpA
                if span > 0 then
                  (true, vd.upd bpA fun b => { b with word := span - HEADSIZE })
                else (false, vd)
          else (true, vd)
        match bpOkVd with
        | (false, vd) => (vd, true)
        | (true, vd) =>
            let vd := vd.upd bpA fun b => { b with word := SETJUNK (SETBUSY b.word) }
            (vd.pushCache (C_INDEX (vd.wordAt bpA)) bpA, true)

/-- The per-segment body of `bestcompact` (vmbest.c lines 477-532).
The returned flag records whether a provider shrink was attempted. -/
def bestcompactSeg (disc : Vmdisc) (vd : Vmdata) (segBase : Nat) : Vmdata × Bool :=
  match vd.segs.find? fun s => s.base = segBase with
  | none => (vd, false)
  | some seg =>
      let sentA := seg.sentAddr
      if !ISPFREE (vd.wordAt sentA) then (vd, false)
      else
        let bpA := prevSelfOf vd sentA
        let size0 := vd.wordAt bpA
        let isWild := vd.wild = some bpA
        let rnd := if disc.round = 0 then PAGESIZE else disc.round
        let vd :=
          if isWild ∧ size0 > COMPACT * vd.incr ∧ vd.incr > rnd then
            vd.setIncr (vd.incr / 2)
          else vd
        if isWild ∧ (size0 ≤ COMPACT * vd.incr ∨ size0 ≤ COMPACT * vd.pool) then (vd, false)
        else
          let vd := if isWild then (vd.setWild none).setPool 0 else removeFree vd bpA
          compactTrim disc vd segBase bpA size0 seg

/-- The segment walk of `bestcompact` (`next` captured ahead). -/
def compactWalk (disc : Vmdisc) : List Nat → Vmdata → Vmdata
  | [], vd => vd
  | b :: bs, vd => compactWalk disc bs (bestcompactSeg disc vd b).1

/-- `bestcompact` (vmbest.c lines 465-541). -/
def bestcompact (disc : Vmdisc) (vd0 : Vmdata) (locl : Bool) : Int × Vmdata :=
  let vd := setLock vd0 locl
  let vd := (bestreclaim vd none 0).1
  let vd := compactWalk disc (vd.segs.map Seg.base) vd
  (0, clrLock vd locl)

theorem HEADSIZE_pos : 0 < HEADSIZE := by decide

theorem CLRB_SETBUSY (w : Nat) : CLRB (SETBUSY w) = CLRB w := by
  unfold SETBUSY
  by_cases h : ISBUSY w = true
  · rw [if_pos h]
  · rw [if_neg h]
    simp only [ISBUSY, decide_eq_true_eq] at h
    unfold CLRB BUSY
    omega

theorem CLRB_SETPFREE (w : Nat) : CLRB (SETPFREE w) = CLRB w := by
  unfold SETPFREE
  by_cases h : ISPFREE w = true
  · rw [if_pos h]
  · rw [if_neg h]
    simp only [ISPFREE, decide_eq_true_eq] at h
    unfold CLRB PFREE
    omega

theorem CLRB_SETJUNK (w : Nat) : CLRB (SETJUNK w) = CLRB w := by
  unfold SETJUNK
  by_cases h : ISJUNK w = true
  · rw [if_pos h]
  · rw [if_neg h]
    simp only [ISJUNK, decide_eq_true_eq] at h
    unfold CLRB JUNK
    omega

theorem CLRB_CLRPFREE (w : Nat) : CLRB (CLRPFREE w) = CLRB w := by
  unfold CLRPFREE
  by_cases h : ISPFREE w = true
  · rw [if_pos h]
    simp only [ISPFREE, decide_eq_true_eq] at h
    unfold CLRB PFREE
    omega
  · rw [if_neg h]

theorem CLRB_CLRJUNK (w : Nat) : CLRB (CLRJUNK w) = CLRB w := by
  unfold CLRJUNK
  by_cases h : ISJUNK w = true
  · rw [if_pos h]
    simp only [ISJUNK, decide_eq_true_eq] at h
    unfold CLRB JUNK
    omega
  · rw [if_neg h]

theorem CLRB_CLRB (w : Nat) : CLRB (CLRB w) = CLRB w := by
  unfold CLRB
  omega

theorem findW_some_le : ∀ (l : List Blk) (a0 a : Nat) (b : Blk),
    findW a0 a l = some b → a0 ≤ a := by
  intro l
  induction l with
  | nil => intro a0 a b h; simp [findW] at h
  | cons c cs ih =>
      intro a0 a b h
      rw [findW] at h
      split at h
      · omega
      · have h1 := ih (nextAddr a0 c) a b h
        have h2 := HEADSIZE_pos
        unfold nextAddr at h1
        omega

theorem findW_upd1 (g : Blk → Blk) : ∀ (l : List Blk) (a0 a : Nat),
    findW a0 a (upd1 a0 a g l) = (findW a0 a l).map g := by
  intro l
  induction l with
  | nil => intro a0 a; rfl
  | cons c cs ih =>
      intro a0 a
      by_cases h : a0 = a
      · simp [findW, upd1, if_pos h]
      · simp only [findW, upd1, if_neg h]
        exact ih (nextAddr a0 c) a

theorem upd1_not_found (g : Blk → Blk) : ∀ (l : List Blk) (a0 a : Nat),
    findW a0 a l = none → upd1 a0 a g l = l := by
  intro l
  induction l with
  | nil => intro a0 a _; rfl
  | cons c cs ih =>
      intro a0 a h
      rw [findW] at h
      by_cases h0 : a0 = a
      · rw [if_pos h0] at h; exact absurd h (by simp)
      · rw [if_neg h0] at h
        rw [upd1, if_neg h0, ih (nextAddr a0 c) a h]

theorem findW_upd1_ne (g : Blk → Blk) (hg : ∀ b, CLRB (g b).word = CLRB b.word) :
    ∀ (l : List Blk) (a0 a x : Nat), x ≠ a →
      findW a0 x (upd1 a0 a g l) = findW a0 x l := by
  intro l
  induction l with
  | nil => intro a0 a x _; rfl
  | cons c cs ih =>
      intro a0 a x hx
      by_cases h0 : a0 = a
      · have hax : ¬a0 = x := fun h => hx (h ▸ h0)
        rw [upd1, if_pos h0, findW, if_neg hax, findW, if_neg hax]
        have : nextAddr a0 (g c) = nextAddr a0 c := by
          unfold nextAddr; rw [hg c]
        rw [this]
      · rw [upd1, if_neg h0, findW, findW]
        by_cases hax : a0 = x
        · rw [if_pos hax, if_pos hax]
        · rw [if_neg hax, if_neg hax]
          exact ih (nextAddr a0 c) a x hx

theorem split2_not_found (hw rw : Nat) : ∀ (l : List Blk) (a0 a : Nat),
    findW a0 a l = none → split2 a0 a hw rw l = l := by
  intro l
  induction l with
  | nil => intro a0 a _; rfl
  | cons c cs ih =>
      intro a0 a h
      rw [findW] at h
      by_cases h0 : a0 = a
      · rw [if_pos h0] at h; exact absurd h (by simp)
      · rw [if_neg h0] at h
        rw [split2, if_neg h0, ih (nextAddr a0 c) a h]

theorem findW_split2_head (hw rw : Nat) : ∀ (l : List Blk) (a0 a : Nat) (b : Blk),
    findW a0 a l = some b →
      findW a0 a (split2 a0 a hw rw l) = some ⟨hw, b.segw, 0⟩ := by
  intro l
  induction l with
  | nil => intro a0 a b h; simp [findW] at h
  | cons c cs ih =>
      intro a0 a b h
      rw [findW] at h
      by_cases h0 : a0 = a
      · rw [if_pos h0] at h
        injection h with h
        subst h
        rw [split2, if_pos h0, findW, if_pos h0]
      · rw [if_neg h0] at h
        rw [split2, if_neg h0, findW, if_neg h0]
        exact ih (nextAddr a0 c) a b h

theorem findW_split2_rem (hw rw : Nat) : ∀ (l : List Blk) (a0 a : Nat) (b : Blk),
    findW a0 a l = some b →
      findW a0 (a + HEADSIZE + CLRB hw) (split2 a0 a hw rw l) =
        some ⟨rw, b.segw, b.selfw⟩ := by
  intro l
  induction l with
  | nil => intro a0 a b h; simp [findW] at h
  | cons c cs ih =>
      intro a0 a b h
      have hH := HEADSIZE_pos
      rw [findW] at h
      by_cases h0 : a0 = a
      · rw [if_pos h0] at h
        injection h with h
        subst h
        subst h0
        have hne : ¬a0 = a0 + HEADSIZE + CLRB hw := by omega
        rw [split2, if_pos rfl, findW, if_neg hne]
        have : nextAddr a0 ({ word := hw, segw := c.segw, selfw := 0 } : Blk) =
            a0 + HEADSIZE + CLRB hw := rfl
        rw [this, findW, if_pos rfl]
      · rw [if_neg h0] at h
        have hle := findW_some_le cs (nextAddr a0 c) a b h
        have hne : ¬a0 = a + HEADSIZE + CLRB hw := by
          unfold nextAddr at hle; omega
        rw [split2, if_neg h0, findW, if_neg hne]
        exact ih (nextAddr a0 c) a b h

theorem findInSegs_cons_none (a : Nat) (s : Seg) (ss : List Seg)
    (h : findInSegs a (s :: ss) = none) :
    findW s.base a s.blocks = none ∧ findInSegs a ss = none := by
  rw [findInSegs] at h
  cases hf : findW s.base a s.blocks with
  | some b => rw [hf] at h; exact absurd h (by simp)
  | none => rw [hf] at h; exact ⟨rfl, h⟩

theorem findBlk_upd_self (vd : Vmdata) (a : Nat) (g : Blk → Blk) :
    (vd.upd a g).findBlk a = (vd.findBlk a).map g := by
  unfold Vmdata.upd Vmdata.findBlk
  simp only
  induction vd.segs with
  | nil => rfl
  | cons s ss ih =>
      rw [List.map_cons, findInSegs, findInSegs]
      rw [findW_upd1 g s.blocks s.base a]
      cases hf : findW s.base a s.blocks with
      | some b => rfl
      | none => simpa using ih

theorem findBlk_upd_ne (vd : Vmdata) (a x : Nat) (g : Blk → Blk)
    (hg : ∀ b, CLRB (g b).word = CLRB b.word) (hx : x ≠ a) :
    (vd.upd a g).findBlk x = vd.findBlk x := by
  unfold Vmdata.upd Vmdata.findBlk
  simp only
  induction vd.segs with
  | nil => rfl
  | cons s ss ih =>
      rw [List.map_cons, findInSegs, findInSegs]
      rw [findW_upd1_ne g hg s.blocks s.base a x hx]
      cases hf : findW s.base x s.blocks with
      | some b => rfl
      | none => simpa using ih

theorem findInSegs_split_head (a hw rw : Nat) : ∀ (segs : List Seg) (b : Blk),
    findInSegs a segs = some b →
      findInSegs a (segs.map fun s => { s with blocks := split2 s.base a hw rw s.blocks }) =
        some ⟨hw, b.segw, 0⟩ := by
  intro segs
  induction segs with
  | nil => intro b h; simp [findInSegs] at h
  | cons s ss ih =>
      intro b h
      rw [List.map_cons, findInSegs]
      rw [findInSegs] at h
      cases hf : findW s.base a s.blocks with
      | some c =>
          rw [hf] at h
          injection h with h
          subst h
          rw [findW_split2_head hw rw s.blocks s.base a c hf]
      | none =>
          rw [hf] at h
          rw [split2_not_found hw rw s.blocks s.base a hf, hf]
          exact ih b h

theorem findBlk_split_head (vd : Vmdata) (a hw rw : Nat) (b : Blk)
    (h : vd.findBlk a = some b) :
    (vd.split a hw rw).findBlk a = some ⟨hw, b.segw, 0⟩ :=
  findInSegs_split_head a hw rw vd.segs b h

theorem findInSegs_split_rem (a hw rw : Nat) : ∀ (segs : List Seg) (b : Blk),
    findInSegs a segs = some b →
    findInSegs (a + HEADSIZE + CLRB hw) segs = none →
      findInSegs (a + HEADSIZE + CLRB hw)
          (segs.map fun s => { s with blocks := split2 s.base a hw rw s.blocks }) =
        some ⟨rw, b.segw, b.selfw⟩ := by
  intro segs
  induction segs with
  | nil => intro b h _; simp [findInSegs] at h
  | cons s ss ih =>
      intro b h hfresh
      obtain ⟨hf1, hf2⟩ := findInSegs_cons_none _ _ _ hfresh
      rw [List.map_cons, findInSegs]
      rw [findInSegs] at h
      cases hf : findW s.base a s.blocks with
      | some c =>
          rw [hf] at h
          injection h with h
          subst h
          rw [findW_split2_rem hw rw s.blocks s.base a c hf]
      | none =>
          rw [hf] at h
          rw [split2_not_found hw rw s.blocks s.base a hf, hf1]
          exact ih b h hf2

theorem findBlk_split_rem (vd : Vmdata) (a hw rw : Nat) (b : Blk)
    (h : vd.findBlk a = some b)
    (hfresh : vd.findBlk (a + HEADSIZE + CLRB hw) = none) :
    (vd.split a hw rw).findBlk (a + HEADSIZE + CLRB hw) =
      some ⟨rw, b.segw, b.selfw⟩ :=
  findInSegs_split_rem a hw rw vd.segs b h hfresh

/-- Line 568: `size = size <= BODYSIZE ? BODYSIZE : ROUND(size,ALIGN)`
(the ANSI requirement that malloc(0) returns a usable block). -/
def roundSize (size : Nat) : Nat :=
  if size ≤ BODYSIZE then BODYSIZE else ROUND size ALIGN

/-- Modelled from the spec: `VMWILD(vd, np)` of the missing header (spec
4.7 step 6): the block at `npA` of body size `npSize` abuts the bottom
segment's sentinel. -/
def vmwild (vd : Vmdata) (npA npSize : Nat) : Bool :=
  match vd.segs with
  | [] => false
  | s :: _ => npA + HEADSIZE + npSize = s.sentAddr

/-- The `got_block` continuation of `bestalloc` (lines 609-637): clear
PFREE on the successor, split off a trailing remainder when the slack
holds a block (the remainder becoming the wilderness when it abuts the
bottom sentinel, the last-freed slot otherwise), mark the grant busy and
return its body address. -/
def gotBlock (vd0 : Vmdata) (tpA size : Nat) : Option Nat × Vmdata :=
  let s0 := vd0.sizeAt tpA
  let vd := vd0.upd (tpA + HEADSIZE + s0) fun b => { b with word := CLRPFREE b.word }
  let vd :=
    if s0 - size ≥ HEADSIZE + BODYSIZE then
      let rw := s0 - size - HEADSIZE + BUSY + JUNK
      let npA := tpA + HEADSIZE + size
      let vd := vd.split tpA size rw
      if vmwild vd npA (s0 - size - HEADSIZE) then
        let vd := vd.upd npA fun b => { b with word := CLRB b.word, selfw := npA }
        let vd := vd.upd (npA + HEADSIZE + (s0 - size - HEADSIZE)) fun b =>
          { b with word := SETPFREE b.word }
        vd.setWild (some npA)
      else vd.setFree (some npA)
    else vd
  (some (tpA + HEADSIZE), vd.upd tpA fun b => { b with word := SETBUSY b.word })

/-- One turn of the best-fit loop (lines 593-597): reclaim down to
bucket `n`, then search the tree. -/
def allocTryN (vd : Vmdata) (size n : Nat) : Option Nat × Vmdata :=
  let vd := (bestreclaim vd none n).1
  if vd.root ≠ .nil then bestsearch vd size none
  else (none, vd)

/-- `for(n = S_CACHE; n >= 0; --n)` of `bestalloc`. -/
def allocLoop (size : Nat) : Nat → Vmdata → Option Nat × Vmdata
  | 0, vd => allocTryN vd size 0
  | n + 1, vd =>
      match allocTryN vd size (n + 1) with
      | (some tpA, vd) => (some tpA, vd)
      | (none, vd) => allocLoop size n vd

/-- Lines 606-608 of `bestalloc`: compact opportunistically, then extend
the arena and serve from the fresh block. -/
def allocExtend (disc : Vmdisc) (vd : Vmdata) (size : Nat) (locl : Bool) :
    Option Nat × Vmdata :=
  let vd := (bestcompact disc vd true).2
  match vmextend disc vd size with
  | (some tpA, vd) =>
      match gotBlock vd tpA size with
      | (r, vd) => (r, clrLock vd locl)
  | (none, vd) => (none, clrLock vd locl)

/-- The slow path of `bestalloc` after the last-freed slot was tried:
best-fit loop, wilderness, extension. -/
def allocMain (disc : Vmdisc) (vd : Vmdata) (size : Nat) (locl : Bool) :
    Option Nat × Vmdata :=
  match allocLoop size S_CACHE vd with
  | (some tpA, vd) =>
      match gotBlock vd tpA size with
      | (r, vd) => (r, clrLock vd locl)
  | (none, vd) =>
      match vd.wild with
      | some tpA =>
          if size ≤ vd.wordAt tpA then
            match gotBlock { vd with wild := none } tpA size with
            | (r, vd) => (r, clrLock vd locl)
          else allocExtend disc vd size locl
      | none => allocExtend disc vd size locl

/-- `bestalloc` (vmbest.c lines 543-646). -/
def bestalloc (disc : Vmdisc) (vd0 : Vmdata) (size0 : Nat) (locl : Bool) :
    Option Nat × Vmdata :=
  let vd := setLock vd0 locl
  let size := roundSize size0
  match vd.free with
  | some tpA =>
      let vd := vd.setFree none
      let s := vd.wordAt tpA
      if size ≤ s ∧ s < 2 * size then
        let vd :=
          if size + (HEADSIZE + BODYSIZE) ≤ s then
            let npA := tpA + HEADSIZE + size
            let hw := CLRJUNK (size + s % 8)
            let rw := CLRB s - (size + HEADSIZE) + JUNK + BUSY
            (vd.split tpA hw rw).setFree (some npA)
          else vd.upd tpA fun b => { b with word := CLRJUNK b.word }
        (some (tpA + HEADSIZE), clrLock vd locl)
      else allocMain disc (vd.pushCache S_CACHE tpA) size locl
  | none => allocMain disc vd size locl

@[simp] theorem clrLock_segs (vd : Vmdata) (l : Bool) : (clrLock vd l).segs = vd.segs := by
  unfold clrLock; split <;> rfl

@[simp] theorem clrLock_free (vd : Vmdata) (l : Bool) : (clrLock vd l).free = vd.free := by
  unfold clrLock; split <;> rfl

@[simp] theorem clrLock_pool (vd : Vmdata) (l : Bool) : (clrLock vd l).pool = vd.pool := by
  unfold clrLock; split <;> rfl

@[simp] theorem clrLock_incr (vd : Vmdata) (l : Bool) : (clrLock vd l).incr = vd.incr := by
  unfold clrLock; split <;> rfl

@[simp] theorem clrLock_wild (vd : Vmdata) (l : Bool) : (clrLock vd l).wild = vd.wild := by
  unfold clrLock; split <;> rfl

@[simp] theorem clrLock_cache (vd : Vmdata) (l : Bool) : (clrLock vd l).cache = vd.cache := by
  unfold clrLock; split <;> rfl

@[simp] theorem clrLock_tiny (vd : Vmdata) (l : Bool) : (clrLock vd l).tiny = vd.tiny := by
  unfold clrLock; split <;> rfl

@[simp] theorem clrLock_root (vd : Vmdata) (l : Bool) : (clrLock vd l).root = vd.root := by
  unfold clrLock; split <;> rfl

theorem wordAt_of_findBlk (vd : Vmdata) (a : Nat) (b : Blk)
    (h : vd.findBlk a = some b) : vd.wordAt a = b.word := by
  simp [Vmdata.wordAt, h]

theorem roundSize_align (s : Nat) : roundSize s % ALIGN = 0 := by
  unfold roundSize ROUND BODYSIZE ALIGN
  split
  · rfl
  · simp only [if_neg (by decide : ¬(16 = 0))]
    omega

theorem roundSize_ge (s : Nat) : BODYSIZE ≤ roundSize s := by
  unfold roundSize ROUND BODYSIZE ALIGN
  split
  · omega
  · simp only [if_neg (by decide : ¬(16 = 0))]
    omega

/-- The provider that refuses every request. -/
def discNone : Vmdisc := ⟨fun _ _ _ => none, 0⟩

/-- A region whose last-freed slot holds a junk block of body size 16
(word 16|BUSY|JUNK = 21) at address 1000; `alloc(0)` is served from it. -/
def c4vd : Vmdata :=
  { lock := 0, incr := 4096, pool := 0,
    segs := [⟨1000, [⟨21, 1000, 0⟩, ⟨1, 1000, 0⟩]⟩],
    free := some 1000, wild := none, root := .nil,
    tiny := [[], [], [], [], [], [], []],
    cache := [[], [], [], [], [], [], [], []] }

@[simp] theorem findBlk_setFree (vd : Vmdata) (x : Option Nat) (a : Nat) :
    (vd.setFree x).findBlk a = vd.findBlk a := rfl

@[simp] theorem findBlk_setWild (vd : Vmdata) (x : Option Nat) (a : Nat) :
    (vd.setWild x).findBlk a = vd.findBlk a := rfl

@[simp] theorem findBlk_setRoot (vd : Vmdata) (t : Btree) (a : Nat) :
    (vd.setRoot t).findBlk a = vd.findBlk a := rfl

@[simp] theorem findBlk_setPool (vd : Vmdata) (p a : Nat) :
    (vd.setPool p).findBlk a = vd.findBlk a := rfl

@[simp] theorem findBlk_pushCache (vd : Vmdata) (n x a : Nat) :
    (vd.pushCache n x).findBlk a = vd.findBlk a := rfl

@[simp] theorem findBlk_clrLock (vd : Vmdata) (l : Bool) (a : Nat) :
    (clrLock vd l).findBlk a = vd.findBlk a := by
  unfold clrLock; split <;> rfl

@[simp] theorem setFree_free (vd : Vmdata) (x : Option Nat) : (vd.setFree x).free = x := rfl

@[simp] theorem setFree_segs (vd : Vmdata) (x : Option Nat) : (vd.setFree x).segs = vd.segs := rfl

@[simp] theorem setFree_wild (vd : Vmdata) (x : Option Nat) : (vd.setFree x).wild = vd.wild := rfl

@[simp] theorem setFree_cache (vd : Vmdata) (x : Option Nat) :
    (vd.setFree x).cache = vd.cache := rfl

@[simp] theorem setFree_pool (vd : Vmdata) (x : Option Nat) : (vd.setFree x).pool = vd.pool := rfl

@[simp] theorem setFree_incr (vd : Vmdata) (x : Option Nat) : (vd.setFree x).incr = vd.incr := rfl

@[simp] theorem setWild_wild (vd : Vmdata) (x : Option Nat) : (vd.setWild x).wild = x := rfl

@[simp] theorem setWild_free (vd : Vmdata) (x : Option Nat) : (vd.setWild x).free = vd.free := rfl

@[simp] theorem setWild_segs (vd : Vmdata) (x : Option Nat) : (vd.setWild x).segs = vd.segs := rfl

@[simp] theorem upd_free (vd : Vmdata) (a : Nat) (g : Blk → Blk) :
    (vd.upd a g).free = vd.free := rfl

@[simp] theorem upd_wild (vd : Vmdata) (a : Nat) (g : Blk → Blk) :
    (vd.upd a g).wild = vd.wild := rfl

@[simp] theorem upd_cache (vd : Vmdata) (a : Nat) (g : Blk → Blk) :
    (vd.upd a g).cache = vd.cache := rfl

@[simp] theorem upd_pool (vd : Vmdata) (a : Nat) (g : Blk → Blk) :
    (vd.upd a g).pool = vd.pool := rfl

@[simp] theorem split_free (vd : Vmdata) (a hw rw : Nat) :
    (vd.split a hw rw).free = vd.free := rfl

@[simp] theorem split_wild (vd : Vmdata) (a hw rw : Nat) :
    (vd.split a hw rw).wild = vd.wild := rfl

@[simp] theorem split_cache (vd : Vmdata) (a hw rw : Nat) :
    (vd.split a hw rw).cache = vd.cache := rfl

@[simp] theorem split_pool (vd : Vmdata) (a hw rw : Nat) :
    (vd.split a hw rw).pool = vd.pool := rfl

theorem ISBUSY_SETBUSY (w : Nat) : ISBUSY (SETBUSY w) = true := by
  unfold SETBUSY
  by_cases h : ISBUSY w = true
  · rw [if_pos h]; exact h
  · rw [if_neg h]
    simp only [ISBUSY, decide_eq_true_eq] at h ⊢
    unfold BUSY
    omega

/-- C4: every request is rounded to at least `BODYSIZE` and to a granule
multiple (request 0 becomes exactly `BODYSIZE`); every granted block —
the `got_block` continuation running under the source's own assertions
`!ISBITS(SIZE(tp))`, `SIZE(tp) >= size`, `SIZE(tp) % ALIGN == 0` — is
marked busy with a body of at least `BODYSIZE` bytes and a granule
multiple, at the non-nil body address `tp + HEADSIZE`; and concretely
`alloc(0)` on a region with an available block returns a non-nil body
address. -/
theorem alloc_rounding_and_grant :
    (roundSize 0 = BODYSIZE ∧ ∀ s : Nat, BODYSIZE ≤ roundSize s ∧ roundSize s % ALIGN = 0) ∧
    (∀ (vd : Vmdata) (tpA size : Nat) (b : Blk),
       vd.findBlk tpA = some b → b.word % ALIGN = 0 → size ≤ b.word →
       size % ALIGN = 0 → BODYSIZE ≤ size →
       (gotBlock vd tpA size).1 = some (tpA + HEADSIZE) ∧
       ∃ hb, (gotBlock vd tpA size).2.findBlk tpA = some hb ∧
         ISBUSY hb.word = true ∧ BODYSIZE ≤ CLRB hb.word ∧ CLRB hb.word % ALIGN = 0) ∧
    (bestalloc discNone c4vd 0 false).1 = some 1016 := by
  refine ⟨⟨rfl, fun s => ⟨roundSize_ge s, roundSize_align s⟩⟩, ?_, by decide⟩
  intro vd tpA size b hb halign hge hsal hbody
  have h16 : ALIGN = 16 := rfl
  have hH : HEADSIZE = 16 := rfl
  have hB : BODYSIZE = 16 := rfl
  have h8 : b.word % 8 = 0 := by have t := halign; rw [h16] at t; omega
  have hs8 : size % 8 = 0 := by have t := hsal; rw [h16] at t; omega
  have hclrb : CLRB b.word = b.word := by unfold CLRB; omega
  have hsz : vd.sizeAt tpA = b.word := by
    unfold Vmdata.sizeAt
    rw [wordAt_of_findBlk vd tpA b hb, hclrb]
  have hg1 : ∀ bb : Blk, CLRB ({ bb with word := CLRPFREE bb.word } : Blk).word = CLRB bb.word :=
    fun bb => CLRB_CLRPFREE bb.word
  have hb1 : (vd.upd (tpA + HEADSIZE + b.word)
      (fun bb => { bb with word := CLRPFREE bb.word })).findBlk tpA = some b := by
    rw [findBlk_upd_ne vd (tpA + HEADSIZE + b.word) tpA _ hg1 (by omega)]
    exact hb
  simp only [gotBlock, hsz]
  by_cases hsplit : b.word - size ≥ HEADSIZE + BODYSIZE
  · rw [if_pos hsplit]
    have hCsz : CLRB size = size := by unfold CLRB; omega
    have hBS : BODYSIZE ≤ size := hbody
    have hsp : ((vd.upd (tpA + HEADSIZE + b.word)
        (fun bb => { bb with word := CLRPFREE bb.word })).split tpA size
          (b.word - size - HEADSIZE + BUSY + JUNK)).findBlk tpA =
        some ⟨size, b.segw, 0⟩ :=
      findBlk_split_head _ tpA size (b.word - size - HEADSIZE + BUSY + JUNK) b hb1
    by_cases hw : vmwild ((vd.upd (tpA + HEADSIZE + b.word)
        (fun bb => { bb with word := CLRPFREE bb.word })).split tpA size
          (b.word - size - HEADSIZE + BUSY + JUNK))
        (tpA + HEADSIZE + size) (b.word - size - HEADSIZE) = true
    · rw [if_pos hw]
      constructor
      · trivial
      · refine ⟨⟨SETBUSY size, b.segw, 0⟩, ?_, ISBUSY_SETBUSY size, ?_, ?_⟩
        · rw [findBlk_upd_self]
          rw [findBlk_setWild]
          have e2 : ∀ bb : Blk,
              CLRB ({ bb with word := SETPFREE bb.word } : Blk).word = CLRB bb.word :=
            fun bb => CLRB_SETPFREE bb.word
          rw [findBlk_upd_ne _ (tpA + HEADSIZE + size + HEADSIZE + (b.word - size - HEADSIZE))
            tpA _ e2 (by omega)]
          have e1 : ∀ bb : Blk,
              CLRB ({ bb with word := CLRB bb.word, selfw := tpA + HEADSIZE + size } : Blk).word
                = CLRB bb.word :=
            fun bb => CLRB_CLRB bb.word
          rw [findBlk_upd_ne _ (tpA + HEADSIZE + size) tpA _ e1 (by omega)]
          rw [hsp]
          rfl
        · rw [CLRB_SETBUSY, hCsz]; exact hbody
        · rw [CLRB_SETBUSY, hCsz]; exact hsal
    · rw [if_neg hw]
      constructor
      · trivial
      · refine ⟨⟨SETBUSY size, b.segw, 0⟩, ?_, ISBUSY_SETBUSY size, ?_, ?_⟩
        · rw [findBlk_upd_self]
          rw [findBlk_setFree]
          rw [hsp]
          rfl
        · rw [CLRB_SETBUSY, hCsz]; exact hbody
        · rw [CLRB_SETBUSY, hCsz]; exact hsal
  · rw [if_neg hsplit]
    constructor
    · trivial
    · refine ⟨⟨SETBUSY b.word, b.segw, b.selfw⟩, ?_, ISBUSY_SETBUSY b.word, ?_, ?_⟩
      · rw [findBlk_upd_self, hb1]
        rfl
      · rw [CLRB_SETBUSY, hclrb]; omega
      · rw [CLRB_SETBUSY, hclrb]; exact halign

/-- A region with one busy block of body size 96 at 2000 followed by the
sentinel: a concrete grant for the `got_block` stage. -/
def c4gVd : Vmdata :=
  { lock := 0, incr := 4096, pool := 0,
    segs := [⟨2000, [⟨96, 2000, 7⟩, ⟨1, 2000, 0⟩]⟩],
    free := none, wild := none, root := .nil,
    tiny := [[], [], [], [], [], [], []],
    cache := [[], [], [], [], [], [], [], []] }

theorem alloc_rounding_and_grant_witness :
    (c4gVd.findBlk 2000 = some ⟨96, 2000, 7⟩ ∧ (96 : Nat) % ALIGN = 0 ∧
      (32 : Nat) ≤ 96 ∧ (32 : Nat) % ALIGN = 0 ∧ BODYSIZE ≤ 32) ∧
    ((gotBlock c4gVd 2000 32).1 = some 2016 ∧
      ∃ hb, (gotBlock c4gVd 2000 32).2.findBlk 2000 = some hb ∧
        ISBUSY hb.word = true ∧ BODYSIZE ≤ CLRB hb.word ∧ CLRB hb.word % ALIGN = 0) :=
  ⟨⟨by decide, by decide, by decide, by decide, by decide⟩,
   alloc_rounding_and_grant.2.1 c4gVd 2000 32 ⟨96, 2000, 7⟩
     (by decide) (by decide) (by decide) (by decide) (by decide)⟩

@[simp] theorem findBlk_setLock (vd : Vmdata) (l : Bool) (a : Nat) :
    (setLock vd l).findBlk a = vd.findBlk a := by
  unfold setLock; split <;> rfl

/-- C5: when the last-freed slot holds a (busy, junk) block whose body
size `s` satisfies `size <= s < 2*size` for the rounded request, that
block is returned.  If moreover `s >= size + header + BODYSIZE`, a
trailing remainder (busy|junk, body `s - size - header`) is split off
and stored back in the last-freed slot, and the head keeps its old tag
bits except JUNK, which is cleared; otherwise the block is handed out
whole with only JUNK cleared and the slot is left empty. -/
theorem alloc_lastfree_fastpath (disc : Vmdisc) (vd : Vmdata)
    (size0 tpA size : Nat) (b : Blk)
    (hsz : size = roundSize size0)
    (hfree : vd.free = some tpA)
    (hb : vd.findBlk tpA = some b)
    (hbusy : ISBUSY b.word = true)
    (hjunk : ISJUNK b.word = true)
    (halign : CLRB b.word % ALIGN = 0)
    (hge : size ≤ CLRB b.word)
    (hlt : CLRB b.word < 2 * size)
    (hfreshR : vd.findBlk (tpA + HEADSIZE + size) = none) :
    (bestalloc disc vd size0 false).1 = some (tpA + HEADSIZE) ∧
    (size + HEADSIZE + BODYSIZE ≤ CLRB b.word →
      (bestalloc disc vd size0 false).2.free = some (tpA + HEADSIZE + size) ∧
      (∃ rb, (bestalloc disc vd size0 false).2.findBlk (tpA + HEADSIZE + size) = some rb ∧
        rb.word = CLRB b.word - (size + HEADSIZE) + JUNK + BUSY) ∧
      (∃ hb2, (bestalloc disc vd size0 false).2.findBlk tpA = some hb2 ∧
        CLRB hb2.word = size ∧ ISBUSY hb2.word = true ∧
        ISPFREE hb2.word = ISPFREE b.word ∧ ISJUNK hb2.word = false)) ∧
    (CLRB b.word < size + HEADSIZE + BODYSIZE →
      (bestalloc disc vd size0 false).2.free = none ∧
      ∃ hb2, (bestalloc disc vd size0 false).2.findBlk tpA = some hb2 ∧
        hb2.word = CLRJUNK b.word) := by
  have h16 : ALIGN = 16 := rfl
  have hH : HEADSIZE = 16 := rfl
  have hB : BODYSIZE = 16 := rfl
  have hs8 : size % 8 = 0 := by
    have t := roundSize_align size0
    rw [h16] at t
    omega
  have hc8 : CLRB b.word % 8 = 0 := by unfold CLRB; omega
  have hw8 : b.word % 8 = b.word - CLRB b.word := by unfold CLRB; omega
  have hbusN : b.word % 2 = 1 := by
    simpa [ISBUSY, decide_eq_true_eq] using hbusy
  have hjkN : b.word / 4 % 2 = 1 := by
    simpa [ISJUNK, decide_eq_true_eq] using hjunk
  have htag : b.word % 8 = 5 ∨ b.word % 8 = 7 := by omega
  have hcb : CLRB b.word ≤ b.word := by unfold CLRB; omega
  have hbX : ((setLock vd false).setFree none).findBlk tpA = some b := by
    simp [hb]
  have hwX : ((setLock vd false).setFree none).wordAt tpA = b.word := by
    unfold Vmdata.wordAt
    rw [findBlk_setFree, findBlk_setLock, hb]
    rfl
  have halN : CLRB b.word % 16 = 0 := by rw [← h16]; exact halign
  simp only [bestalloc, setLock_free, setFree_free, hfree]
  rw [← hsz, hwX]
  have hcond : size ≤ b.word ∧ b.word < 2 * size := by
    constructor
    · omega
    · omega
  rw [if_pos hcond]
  have hJ : JUNK = 4 := rfl
  have hBU : BUSY = 1 := rfl
  have hjset : CLRJUNK (size + b.word % 8) = size + b.word % 8 - 4 := by
    unfold CLRJUNK ISJUNK
    rw [if_pos (by simp only [decide_eq_true_eq]; omega), hJ]
  have hCLRBhw : CLRB (CLRJUNK (size + b.word % 8)) = size := by
    rw [hjset]
    unfold CLRB
    omega
  by_cases hsplitc : size + HEADSIZE + BODYSIZE ≤ CLRB b.word
  · have hinner : size + (HEADSIZE + BODYSIZE) ≤ b.word := by omega
    rw [if_pos hinner]
    refine ⟨rfl, ?_, fun h => absurd h (by omega)⟩
    intro _
    have hfreshX : ((setLock vd false).setFree none).findBlk
        (tpA + HEADSIZE + CLRB (CLRJUNK (size + b.word % 8))) = none := by
      rw [hCLRBhw]
      simp [hfreshR]
    have hrem := findBlk_split_rem ((setLock vd false).setFree none) tpA
      (CLRJUNK (size + b.word % 8)) (CLRB b.word - (size + HEADSIZE) + JUNK + BUSY)
      b hbX hfreshX
    have hhead := findBlk_split_head ((setLock vd false).setFree none) tpA
      (CLRJUNK (size + b.word % 8)) (CLRB b.word - (size + HEADSIZE) + JUNK + BUSY)
      b hbX
    rw [hCLRBhw] at hrem
    refine ⟨by simp, ⟨⟨CLRB b.word - (size + HEADSIZE) + JUNK + BUSY, b.segw, b.selfw⟩, ?_, rfl⟩,
      ⟨⟨CLRJUNK (size + b.word % 8), b.segw, 0⟩, ?_, ?_, ?_, ?_, ?_⟩⟩
    · rw [findBlk_clrLock, findBlk_setFree]
      exact hrem
    · rw [findBlk_clrLock, findBlk_setFree]
      exact hhead
    · exact hCLRBhw
    · rw [hjset]
      unfold ISBUSY
      simp only [decide_eq_true_eq]
      omega
    · rw [hjset]
      unfold ISPFREE
      rw [decide_eq_decide]
      dsimp only
      omega
    · rw [hjset]
      unfold ISJUNK
      simp only [decide_eq_false_iff_not]
      omega
  · have hinner : ¬(size + (HEADSIZE + BODYSIZE) ≤ b.word) := by omega
    rw [if_neg hinner]
    refine ⟨rfl, fun h => absurd h (by omega), ?_⟩
    intro _
    refine ⟨by simp, ⟨{ b with word := CLRJUNK b.word }, ?_, rfl⟩⟩
    rw [findBlk_clrLock, findBlk_upd_self, hbX]
    rfl

/-- A region whose last-freed slot holds a junk block of body size 96
(word 101 = 96|BUSY|JUNK) at address 3000. -/
def c5vd : Vmdata :=
  { lock := 0, incr := 4096, pool := 0,
    segs := [⟨3000, [⟨101, 3000, 9⟩, ⟨1, 3000, 0⟩]⟩],
    free := some 3000, wild := none, root := .nil,
    tiny := [[], [], [], [], [], [], []],
    cache := [[], [], [], [], [], [], [], []] }

theorem alloc_lastfree_fastpath_witness :
    ((64 : Nat) = roundSize 50 ∧ c5vd.free = some 3000 ∧
      c5vd.findBlk 3000 = some ⟨101, 3000, 9⟩ ∧
      (64 : Nat) ≤ CLRB 101 ∧ CLRB 101 < 2 * 64 ∧
      (64 : Nat) + HEADSIZE + BODYSIZE ≤ CLRB 101) ∧
    (bestalloc discNone c5vd 50 false).1 = some (3000 + HEADSIZE) ∧
    (bestalloc discNone c5vd 50 false).2.free = some (3000 + HEADSIZE + 64) := by
  refine ⟨⟨by decide, rfl, by decide, by decide, by decide, by decide⟩, ?_, ?_⟩
  · exact (alloc_lastfree_fastpath discNone c5vd 50 3000 64 ⟨101, 3000, 9⟩
      (by decide) rfl (by decide) (by decide) (by decide) (by decide)
      (by decide) (by decide) (by decide)).1
  · exact ((alloc_lastfree_fastpath discNone c5vd 50 3000 64 ⟨101, 3000, 9⟩
      (by decide) rfl (by decide) (by decide) (by decide) (by decide)
      (by decide) (by decide) (by decide)).2.1 (by decide)).1

/-- `bestfree` (vmbest.c lines 695-758).  A nil address returns 0
(ANSI-ism); the DEBUG-only branch for addresses 0/1 is not compiled.
Reading the header of an address that is not a block start is undefined
in C; the model returns 0 leaving the region unchanged. -/
def bestfree (disc : Vmdisc) (vd0 : Vmdata) (dataA : Option Nat) (locl : Bool) :
    Int × Vmdata :=
  match dataA with
  | none => (0, vd0)
  | some d =>
      let vd := setLock vd0 locl
      let bpA := d - HEADSIZE
      match vd.findBlk bpA with
      | none => (0, clrLock vd locl)
      | some bp =>
          let s := bp.word
          -- keep an approximate average free block size (pool estimator)
          let vd := vd.setPool ((vd.pool + CLRB s) / 2)
          if ISBUSY s ∧ ¬ISJUNK s = true then
            let vd := vd.upd bpA fun b => { b with word := SETJUNK b.word }
            let vd :=
              if s < MAXCACHE then vd.pushCache (INDEX s) bpA
              else if vd.free = none then vd.setFree (some bpA)
              else vd.pushCache S_CACHE bpA
            -- coalesce on freeing large blocks to avoid fragmentation
            let vd :=
              if 2 * vd.incr ≤ vd.wordAt bpA then
                let vd := (bestreclaim vd none 0).1
                match vd.wild with
                | some w =>
                    if COMPACT * vd.incr ≤ vd.wordAt w then (bestcompact disc vd true).2
                    else vd
                | none => vd
              else vd
            (0, clrLock vd locl)
          else (0, clrLock vd locl)

theorem clrLock_setLock_setPool (vd : Vmdata) (l : Bool) (p : Nat) :
    clrLock ((setLock vd l).setPool p) l = vd.setPool p := by
  cases vd
  cases l <;> simp [setLock, clrLock, Vmdata.setPool]

theorem getD_set_self (l : List (List Nat)) (n : Nat) (x : List Nat)
    (h : n < l.length) : (l.set n x).getD n [] = x := by
  simp [List.getD_eq_getElem?_getD, List.getElem?_set_self, h]

@[simp] theorem setPool_pool (vd : Vmdata) (p : Nat) : (vd.setPool p).pool = p := rfl

@[simp] theorem setPool_segs (vd : Vmdata) (p : Nat) : (vd.setPool p).segs = vd.segs := rfl

@[simp] theorem setPool_free (vd : Vmdata) (p : Nat) : (vd.setPool p).free = vd.free := rfl

@[simp] theorem setPool_wild (vd : Vmdata) (p : Nat) : (vd.setPool p).wild = vd.wild := rfl

@[simp] theorem setPool_cache (vd : Vmdata) (p : Nat) : (vd.setPool p).cache = vd.cache := rfl

@[simp] theorem setPool_tiny (vd : Vmdata) (p : Nat) : (vd.setPool p).tiny = vd.tiny := rfl

@[simp] theorem setPool_root (vd : Vmdata) (p : Nat) : (vd.setPool p).root = vd.root := rfl

@[simp] theorem setPool_incr (vd : Vmdata) (p : Nat) : (vd.setPool p).incr = vd.incr := rfl

@[simp] theorem pushCache_pool (vd : Vmdata) (n a : Nat) : (vd.pushCache n a).pool = vd.pool := rfl

@[simp] theorem pushCache_incr (vd : Vmdata) (n a : Nat) : (vd.pushCache n a).incr = vd.incr := rfl

@[simp] theorem pushCache_free (vd : Vmdata) (n a : Nat) : (vd.pushCache n a).free = vd.free := rfl

@[simp] theorem pushCache_segs (vd : Vmdata) (n a : Nat) : (vd.pushCache n a).segs = vd.segs := rfl

@[simp] theorem pushCache_wild (vd : Vmdata) (n a : Nat) : (vd.pushCache n a).wild = vd.wild := rfl

@[simp] theorem upd_incr (vd : Vmdata) (a : Nat) (g : Blk → Blk) :
    (vd.upd a g).incr = vd.incr := rfl

@[simp] theorem setFree_lock (vd : Vmdata) (x : Option Nat) : (vd.setFree x).lock = vd.lock := rfl

@[simp] theorem setFree_pool2 (vd : Vmdata) (x : Option Nat) : (vd.setFree x).pool = vd.pool := rfl

theorem ISJUNK_SETJUNK (w : Nat) : ISJUNK (SETJUNK w) = true := by
  unfold SETJUNK
  by_cases h : ISJUNK w = true
  · rw [if_pos h]; exact h
  · rw [if_neg h]
    simp only [ISJUNK, decide_eq_true_eq] at h ⊢
    unfold JUNK
    omega

theorem ISBUSY_SETJUNK (w : Nat) : ISBUSY (SETJUNK w) = ISBUSY w := by
  unfold SETJUNK
  by_cases h : ISJUNK w = true
  · rw [if_pos h]
  · rw [if_neg h]
    unfold ISBUSY JUNK
    rw [decide_eq_decide]
    omega

/-- C8: a free of a block that is already JUNK (double free) or already
free (BUSY clear) is silently tolerated: the call returns 0, the block's
header is unchanged (JUNK not set again), and neither any cache list nor
the last-freed slot receives the block. -/
theorem free_double_free_tolerated (disc : Vmdisc) (vd : Vmdata) (bpA : Nat)
    (b : Blk) (locl : Bool)
    (hb : vd.findBlk bpA = some b)
    (hns : ¬(ISBUSY b.word = true ∧ ISJUNK b.word = false)) :
    (bestfree disc vd (some (bpA + HEADSIZE)) locl).1 = 0 ∧
    (bestfree disc vd (some (bpA + HEADSIZE)) locl).2.findBlk bpA = some b ∧
    (bestfree disc vd (some (bpA + HEADSIZE)) locl).2.cache = vd.cache ∧
    (bestfree disc vd (some (bpA + HEADSIZE)) locl).2.free = vd.free ∧
    (bestfree disc vd (some (bpA + HEADSIZE)) locl).2.segs = vd.segs := by
  have hd : bpA + HEADSIZE - HEADSIZE = bpA := by omega
  have hbl : (setLock vd locl).findBlk bpA = some b := by rw [findBlk_setLock]; exact hb
  have hns' : ¬(ISBUSY b.word = true ∧ ¬ISJUNK b.word = true) := by
    intro ⟨h1, h2⟩
    exact hns ⟨h1, by simpa using h2⟩
  simp only [bestfree, hd, hbl]
  rw [if_neg hns']
  rw [clrLock_setLock_setPool]
  refine ⟨rfl, ?_, rfl, rfl, rfl⟩
  rw [findBlk_setPool]
  exact hb

/-- C9: for every free of a non-nil address naming a block, the pool
estimator becomes `(pool + body_size)/2`, read from the block's size
word before the busy/junk test: a double free or a free of an
already-free block changes exactly the pool (and nothing else), and a
proper free (not large enough to trigger the reclaim pass) ends with the
same pool value. -/
theorem free_pool_estimator (disc : Vmdisc) (vd : Vmdata) (bpA : Nat)
    (b : Blk) (locl : Bool)
    (hb : vd.findBlk bpA = some b) :
    (¬(ISBUSY b.word = true ∧ ISJUNK b.word = false) →
       bestfree disc vd (some (bpA + HEADSIZE)) locl =
         (0, vd.setPool ((vd.pool + CLRB b.word) / 2))) ∧
    (ISBUSY b.word = true → ISJUNK b.word = false →
       ¬(2 * vd.incr ≤ SETJUNK b.word) →
       (bestfree disc vd (some (bpA + HEADSIZE)) locl).2.pool =
         (vd.pool + CLRB b.word) / 2) := by
  have hd : bpA + HEADSIZE - HEADSIZE = bpA := by omega
  have hbl : (setLock vd locl).findBlk bpA = some b := by rw [findBlk_setLock]; exact hb
  constructor
  · intro hns
    have hns' : ¬(ISBUSY b.word = true ∧ ¬ISJUNK b.word = true) := by
      intro ⟨h1, h2⟩
      exact hns ⟨h1, by simpa using h2⟩
    simp only [bestfree, hd, hbl]
    rw [if_neg hns']
    rw [setLock_pool, clrLock_setLock_setPool]
  · intro hbusy hnj htrig
    simp only [bestfree, hd, hbl]
    rw [if_pos ⟨hbusy, by simp [hnj]⟩]
    have hset : ((((setLock vd locl).setPool ((vd.pool + CLRB b.word) / 2)).upd bpA
        (fun bb => { bb with word := SETJUNK bb.word })).findBlk bpA) =
          some { b with word := SETJUNK b.word } := by
      rw [findBlk_upd_self, findBlk_setPool, findBlk_setLock, hb]
      rfl
    rw [setLock_pool]
    by_cases hsm : b.word < MAXCACHE
    · rw [if_pos hsm]
      have hword : (((((setLock vd locl).setPool ((vd.pool + CLRB b.word) / 2)).upd bpA
          (fun bb => { bb with word := SETJUNK bb.word })).pushCache (INDEX b.word) bpA).wordAt
            bpA) = SETJUNK b.word := by
        unfold Vmdata.wordAt
        rw [findBlk_pushCache, hset]
        rfl
      rw [hword]
      rw [if_neg (by simpa using htrig)]
      simp [clrLock]
      split <;> rfl
    · rw [if_neg hsm]
      simp only [upd_free, setPool_free, setLock_free]
      by_cases hfr : vd.free = none
      · rw [if_pos hfr]
        have hword : (((((setLock vd locl).setPool ((vd.pool + CLRB b.word) / 2)).upd bpA
            (fun bb => { bb with word := SETJUNK bb.word })).setFree (some bpA)).wordAt
              bpA) = SETJUNK b.word := by
          unfold Vmdata.wordAt
          rw [findBlk_setFree, hset]
          rfl
        rw [hword]
        rw [if_neg (by simpa using htrig)]
        simp [clrLock]
        split <;> rfl
      · rw [if_neg hfr]
        have hword : (((((setLock vd locl).setPool ((vd.pool + CLRB b.word) / 2)).upd bpA
            (fun bb => { bb with word := SETJUNK bb.word })).pushCache S_CACHE bpA).wordAt
              bpA) = SETJUNK b.word := by
          unfold Vmdata.wordAt
          rw [findBlk_pushCache, hset]
          rfl
        rw [hword]
        rw [if_neg (by simpa using htrig)]
        simp [clrLock]
        split <;> rfl

@[simp] theorem setLock_lock_cacheLen (vd : Vmdata) (l : Bool) :
    (setLock vd l).cache.length = vd.cache.length := by
  rw [setLock_cache]

/-- C6: a free of a busy, non-JUNK block of body size `s` routes the
block by size — below `MAXCACHE` it is prepended to `cache[INDEX(s)]`,
otherwise to the empty last-freed slot, otherwise to the `S_CACHE`
catch-all — and in every case the block ends up tagged BUSY|JUNK with
its body size intact in the size word.  (The reclaim trigger for blocks
of at least `2*incr`, outside the cited lines, is excluded by the last
hypothesis.) -/
theorem free_routes_to_cache (disc : Vmdisc) (vd : Vmdata) (bpA : Nat)
    (b : Blk) (locl : Bool)
    (hb : vd.findBlk bpA = some b)
    (hbusy : ISBUSY b.word = true)
    (hnj : ISJUNK b.word = false)
    (halign : CLRB b.word % ALIGN = 0)
    (hlen : vd.cache.length = S_CACHE + 1)
    (htrig : ¬(2 * vd.incr ≤ SETJUNK b.word)) :
    (bestfree disc vd (some (bpA + HEADSIZE)) locl).1 = 0 ∧
    (∃ b2, (bestfree disc vd (some (bpA + HEADSIZE)) locl).2.findBlk bpA = some b2 ∧
       b2.word = SETJUNK b.word ∧ ISBUSY b2.word = true ∧ ISJUNK b2.word = true ∧
       CLRB b2.word = CLRB b.word) ∧
    (CLRB b.word < MAXCACHE →
       (bestfree disc vd (some (bpA + HEADSIZE)) locl).2.cache.getD
           (INDEX (CLRB b.word)) [] =
         bpA :: vd.cache.getD (INDEX (CLRB b.word)) [] ∧
       (bestfree disc vd (some (bpA + HEADSIZE)) locl).2.free = vd.free) ∧
    (MAXCACHE ≤ CLRB b.word → vd.free = none →
       (bestfree disc vd (some (bpA + HEADSIZE)) locl).2.free = some bpA ∧
       (bestfree disc vd (some (bpA + HEADSIZE)) locl).2.cache = vd.cache) ∧
    (MAXCACHE ≤ CLRB b.word → vd.free ≠ none →
       (bestfree disc vd (some (bpA + HEADSIZE)) locl).2.cache.getD S_CACHE [] =
         bpA :: vd.cache.getD S_CACHE [] ∧
       (bestfree disc vd (some (bpA + HEADSIZE)) locl).2.free = vd.free) := by
  have hd : bpA + HEADSIZE - HEADSIZE = bpA := by omega
  have hbl : (setLock vd locl).findBlk bpA = some b := by rw [findBlk_setLock]; exact hb
  have hMC : MAXCACHE = 128 := rfl
  have h16 : ALIGN = 16 := rfl
  have hbusN : b.word % 2 = 1 := by simpa [ISBUSY, decide_eq_true_eq] using hbusy
  have hcl : CLRB b.word = b.word - b.word % 8 := rfl
  have hal16 : CLRB b.word % 16 = 0 := by rw [← h16]; exact halign
  have hsmiff : (b.word < MAXCACHE) ↔ (CLRB b.word < MAXCACHE) := by
    rw [hMC]
    unfold CLRB
    omega
  have hidx : INDEX b.word = INDEX (CLRB b.word) := by
    unfold INDEX ALIGN CLRB
    omega
  simp only [bestfree, hd, hbl]
  rw [if_pos ⟨hbusy, by simp [hnj]⟩]
  have hset : ((((setLock vd locl).setPool (((setLock vd locl).pool + CLRB b.word) / 2)).upd bpA
      (fun bb => { bb with word := SETJUNK bb.word })).findBlk bpA) =
        some { b with word := SETJUNK b.word } := by
    rw [findBlk_upd_self, findBlk_setPool, findBlk_setLock, hb]
    rfl
  by_cases hsm : b.word < MAXCACHE
  · rw [if_pos hsm]
    have hword : (((((setLock vd locl).setPool
        (((setLock vd locl).pool + CLRB b.word) / 2)).upd bpA
        (fun bb => { bb with word := SETJUNK bb.word })).pushCache (INDEX b.word) bpA).wordAt
          bpA) = SETJUNK b.word := by
      unfold Vmdata.wordAt
      rw [findBlk_pushCache, hset]
      rfl
    rw [hword]
    rw [if_neg (by simpa using htrig)]
    refine ⟨by trivial, ?_, ?_, ?_, ?_⟩
    · refine ⟨{ b with word := SETJUNK b.word }, ?_, rfl, ?_, ISJUNK_SETJUNK b.word, CLRB_SETJUNK b.word⟩
      · rw [findBlk_clrLock, findBlk_pushCache]
        exact hset
      · rw [ISBUSY_SETJUNK]; exact hbusy
    · intro _
      constructor
      · rw [clrLock_cache]
        unfold Vmdata.pushCache
        simp only [upd_cache, setPool_cache, setLock_cache]
        rw [← hidx]
        refine getD_set_self vd.cache (INDEX b.word) _ ?_
        rw [hlen]
        unfold INDEX ALIGN S_CACHE
        rw [hMC] at hsm
        omega
      · simp
    · intro hge _
      rw [hsmiff] at hsm
      omega
    · intro hge _
      rw [hsmiff] at hsm
      omega
  · rw [if_neg hsm]
    simp only [upd_free, setPool_free, setLock_free]
    rw [hsmiff] at hsm
    by_cases hfr : vd.free = none
    · rw [if_pos hfr]
      have hword : (((((setLock vd locl).setPool
          (((setLock vd locl).pool + CLRB b.word) / 2)).upd bpA
          (fun bb => { bb with word := SETJUNK bb.word })).setFree (some bpA)).wordAt
            bpA) = SETJUNK b.word := by
        unfold Vmdata.wordAt
        rw [findBlk_setFree, hset]
        rfl
      rw [hword]
      rw [if_neg (by simpa using htrig)]
      refine ⟨by trivial, ?_, ?_, ?_, ?_⟩
      · refine ⟨{ b with word := SETJUNK b.word }, ?_, rfl, ?_, ISJUNK_SETJUNK b.word, CLRB_SETJUNK b.word⟩
        · rw [findBlk_clrLock, findBlk_setFree]
          exact hset
        · rw [ISBUSY_SETJUNK]; exact hbusy
      · intro h; omega
      · intro _ _
        constructor
        · simp
        · simp
      · intro _ hne
        exact absurd hfr hne
    · rw [if_neg hfr]
      have hword : (((((setLock vd locl).setPool
          (((setLock vd locl).pool + CLRB b.word) / 2)).upd bpA
          (fun bb => { bb with word := SETJUNK bb.word })).pushCache S_CACHE bpA).wordAt
            bpA) = SETJUNK b.word := by
        unfold Vmdata.wordAt
        rw [findBlk_pushCache, hset]
        rfl
      rw [hword]
      rw [if_neg (by simpa using htrig)]
      refine ⟨by trivial, ?_, ?_, ?_, ?_⟩
      · refine ⟨{ b with word := SETJUNK b.word }, ?_, rfl, ?_, ISJUNK_SETJUNK b.word, CLRB_SETJUNK b.word⟩
        · rw [findBlk_clrLock, findBlk_pushCache]
          exact hset
        · rw [ISBUSY_SETJUNK]; exact hbusy
      · intro h; omega
      · intro _ hfr2
        exact absurd hfr2 hfr
      · intro _ _
        constructor
        · rw [clrLock_cache]
          unfold Vmdata.pushCache
          simp only [upd_cache, setPool_cache, setLock_cache]
          refine getD_set_self vd.cache S_CACHE _ ?_
          rw [hlen]
          omega
        · simp

/-- A region with one busy non-junk block (word 33 = 32|BUSY) at 1000. -/
def c6vd : Vmdata :=
  { lock := 0, incr := 4096, pool := 0,
    segs := [⟨1000, [⟨33, 1000, 0⟩, ⟨1, 1000, 0⟩]⟩],
    free := none, wild := none, root := .nil,
    tiny := [[], [], [], [], [], [], []],
    cache := [[], [], [], [], [], [], [], []] }

theorem free_routes_to_cache_witness :
    (c6vd.findBlk 1000 = some ⟨33, 1000, 0⟩ ∧ ISBUSY 33 = true ∧ ISJUNK 33 = false ∧
      CLRB 33 % ALIGN = 0 ∧ c6vd.cache.length = S_CACHE + 1 ∧
      ¬(2 * c6vd.incr ≤ SETJUNK 33) ∧ CLRB 33 < MAXCACHE) ∧
    ((bestfree discNone c6vd (some 1016) false).1 = 0 ∧
      (bestfree discNone c6vd (some 1016) false).2.cache.getD (INDEX (CLRB 33)) [] =
        1000 :: c6vd.cache.getD (INDEX (CLRB 33)) []) := by
  refine ⟨⟨by decide, by decide, by decide, by decide, by decide, by decide, by decide⟩, ?_, ?_⟩
  · exact (free_routes_to_cache discNone c6vd 1000 ⟨33, 1000, 0⟩ false
      (by decide) (by decide) (by decide) (by decide) (by decide) (by decide)).1
  · exact ((free_routes_to_cache discNone c6vd 1000 ⟨33, 1000, 0⟩ false
      (by decide) (by decide) (by decide) (by decide) (by decide) (by decide)).2.2.1
        (by decide)).1

/-- A region with one busy JUNK block (word 37 = 32|BUSY|JUNK) at 1000:
freeing its body again is a double free. -/
def c8vd : Vmdata :=
  { lock := 0, incr := 4096, pool := 0,
    segs := [⟨1000, [⟨37, 1000, 0⟩, ⟨1, 1000, 0⟩]⟩],
    free := none, wild := none, root := .nil,
    tiny := [[], [], [], [], [], [], []],
    cache := [[], [], [], [], [], [], [], []] }

theorem free_double_free_tolerated_witness :
    (c8vd.findBlk 1000 = some ⟨37, 1000, 0⟩ ∧ ¬(ISBUSY 37 = true ∧ ISJUNK 37 = false)) ∧
    ((bestfree discNone c8vd (some 1016) false).1 = 0 ∧
      (bestfree discNone c8vd (some 1016) false).2.findBlk 1000 = some ⟨37, 1000, 0⟩ ∧
      (bestfree discNone c8vd (some 1016) false).2.cache = c8vd.cache ∧
      (bestfree discNone c8vd (some 1016) false).2.free = c8vd.free ∧
      (bestfree discNone c8vd (some 1016) false).2.segs = c8vd.segs) := by
  refine ⟨⟨by decide, by decide⟩, ?_⟩
  exact free_double_free_tolerated discNone c8vd 1000 ⟨37, 1000, 0⟩ false
    (by decide) (by decide)

/-- A region with one fully free block at 1000 (word 16, self-reference
in place, on the tiniest list) and pool 10: freeing its body address
touches only the pool estimator. -/
def c9vd : Vmdata :=
  { lock := 0, incr := 4096, pool := 10,
    segs := [⟨1000, [⟨16, 1000, 1000⟩, ⟨3, 1000, 0⟩]⟩],
    free := none, wild := none, root := .nil,
    tiny := [[1000], [], [], [], [], [], []],
    cache := [[], [], [], [], [], [], [], []] }

theorem free_pool_estimator_witness :
    (c9vd.findBlk 1000 = some ⟨16, 1000, 1000⟩ ∧
      ¬(ISBUSY 16 = true ∧ ISJUNK 16 = false)) ∧
    bestfree discNone c9vd (some 1016) false =
      (0, c9vd.setPool ((c9vd.pool + CLRB 16) / 2)) := by
  refine ⟨⟨by decide, by decide⟩, ?_⟩
  exact (free_pool_estimator discNone c9vd 1000 ⟨16, 1000, 1000⟩ false (by decide)).1
    (by decide)

@[simp] theorem setIncr_wild (vd : Vmdata) (n : Nat) : (vd.setIncr n).wild = vd.wild := rfl

@[simp] theorem setIncr_pool (vd : Vmdata) (n : Nat) : (vd.setIncr n).pool = vd.pool := rfl

@[simp] theorem setIncr_segs (vd : Vmdata) (n : Nat) : (vd.setIncr n).segs = vd.segs := rfl

@[simp] theorem setIncr_incr (vd : Vmdata) (n : Nat) : (vd.setIncr n).incr = n := rfl

@[simp] theorem setSegs_wild (vd : Vmdata) (ss : List Seg) : (vd.setSegs ss).wild = vd.wild := rfl

@[simp] theorem setSegs_pool (vd : Vmdata) (ss : List Seg) : (vd.setSegs ss).pool = vd.pool := rfl

@[simp] theorem setWild_pool (vd : Vmdata) (x : Option Nat) : (vd.setWild x).pool = vd.pool := rfl

@[simp] theorem setWild_incr (vd : Vmdata) (x : Option Nat) : (vd.setWild x).incr = vd.incr := rfl

theorem vmtruncate_wild_pool (disc : Vmdisc) (vd : Vmdata) (sb sz : Nat) :
    (vmtruncate disc vd sb sz).2.wild = vd.wild ∧
    (vmtruncate disc vd sb sz).2.pool = vd.pool := by
  unfold vmtruncate
  cases h : vd.segs.find? fun s => s.base = sb with
  | none => exact ⟨rfl, rfl⟩
  | some seg =>
      simp only
      split
      · cases disc.memf seg.base (seg.baddr - seg.base) 0 <;> exact ⟨rfl, rfl⟩
      · cases disc.memf seg.base (seg.baddr - seg.base) (seg.baddr - seg.base - sz) <;>
          exact ⟨rfl, rfl⟩

theorem compactTrim_frame (disc : Vmdisc) (vd : Vmdata) (segBase bpA size0 : Nat)
    (seg : Seg) :
    (compactTrim disc vd segBase bpA size0 seg).2 = true ∧
    (compactTrim disc vd segBase bpA size0 seg).1.wild = vd.wild ∧
    (compactTrim disc vd segBase bpA size0 seg).1.pool = vd.pool := by
  unfold compactTrim
  simp only
  cases htr : vmtruncate disc
      (vd.upd seg.sentAddr fun b => { b with word := CLRPFREE b.word }) segBase
      (if size0 < seg.baddr - seg.base then size0 + HEADSIZE else size0) with
  | mk got vd2 =>
      have hwp := vmtruncate_wild_pool disc
        (vd.upd seg.sentAddr fun b => { b with word := CLRPFREE b.word }) segBase
        (if size0 < seg.baddr - seg.base then size0 + HEADSIZE else size0)
      rw [htr] at hwp
      have hw2 : vd2.wild = vd.wild := by simpa using hwp.1
      have hp2 : vd2.pool = vd.pool := by simpa using hwp.2
      by_cases hc1 : got > 0 ∧ got ≥ seg.baddr - seg.base
      · rw [if_pos hc1]
        exact ⟨rfl, hw2, hp2⟩
      · rw [if_neg hc1]
        by_cases hc2 : got > 0
        · rw [if_pos hc2]
          cases hf : vd2.segs.find? fun s => s.base = segBase with
          | none =>
              exact ⟨rfl, hw2, hp2⟩
          | some seg2 =>
              dsimp only
              by_cases hc3 : seg2.sentAddr - bpA > 0
              · rw [if_pos hc3]
                exact ⟨rfl, by simpa using hw2, by simpa using hp2⟩
              · rw [if_neg hc3]
                exact ⟨rfl, hw2, hp2⟩
        · rw [if_neg hc2]
          exact ⟨rfl, by simpa using hw2, by simpa using hp2⟩

/-- C7: for the bottom segment, when its trailing free block is the
wilderness, `bestcompact` preserves it — no detachment, no trim, no
provider call — exactly when its size is at most `COMPACT*incr` or at
most `COMPACT*pool` (entry values, `COMPACT = 8`); when the size exceeds
both bounds the wilderness is removed (`wild := nil`, `pool := 0`) and a
provider shrink is attempted. -/
theorem compact_wilderness_preservation (disc : Vmdisc) (vd : Vmdata)
    (segBase bpA : Nat) (seg : Seg)
    (hseg : vd.segs.find? (fun s => s.base = segBase) = some seg)
    (hpf : ISPFREE (vd.wordAt seg.sentAddr) = true)
    (hbp : prevSelfOf vd seg.sentAddr = bpA)
    (hwild : vd.wild = some bpA) :
    (vd.wordAt bpA ≤ COMPACT * vd.incr ∨ vd.wordAt bpA ≤ COMPACT * vd.pool →
       (bestcompactSeg disc vd segBase).2 = false ∧
       (bestcompactSeg disc vd segBase).1.wild = some bpA ∧
       (bestcompactSeg disc vd segBase).1.segs = vd.segs ∧
       (bestcompactSeg disc vd segBase).1.pool = vd.pool) ∧
    (COMPACT * vd.incr < vd.wordAt bpA → COMPACT * vd.pool < vd.wordAt bpA →
       (bestcompactSeg disc vd segBase).2 = true ∧
       (bestcompactSeg disc vd segBase).1.wild = none ∧
       (bestcompactSeg disc vd segBase).1.pool = 0) := by
  have hnpf : ¬(!ISPFREE (vd.wordAt seg.sentAddr)) = true := by simp [hpf]
  constructor
  · intro hpres
    by_cases hhv : vd.wild = some (prevSelfOf vd seg.sentAddr) ∧
        vd.wordAt (prevSelfOf vd seg.sentAddr) > COMPACT * vd.incr ∧
        vd.incr > (if disc.round = 0 then PAGESIZE else disc.round)
    · have hkeep : vd.wild = some (prevSelfOf vd seg.sentAddr) ∧
          (vd.wordAt (prevSelfOf vd seg.sentAddr) ≤
              COMPACT * (vd.setIncr (vd.incr / 2)).incr ∨
            vd.wordAt (prevSelfOf vd seg.sentAddr) ≤
              COMPACT * (vd.setIncr (vd.incr / 2)).pool) := by
        rw [hbp]
        refine ⟨hwild, ?_⟩
        rw [setIncr_incr, setIncr_pool]
        rw [hbp] at hhv
        rcases hpres with h | h
        · omega
        · exact Or.inr h
      have hres : bestcompactSeg disc vd segBase = (vd.setIncr (vd.incr / 2), false) := by
        unfold bestcompactSeg
        rw [hseg]
        simp only
        rw [if_neg hnpf]
        rw [if_pos hhv, if_pos hkeep]
      rw [hres]
      exact ⟨rfl, hwild, rfl, rfl⟩
    · have hkeep : vd.wild = some (prevSelfOf vd seg.sentAddr) ∧
          (vd.wordAt (prevSelfOf vd seg.sentAddr) ≤ COMPACT * vd.incr ∨
            vd.wordAt (prevSelfOf vd seg.sentAddr) ≤ COMPACT * vd.pool) := by
        rw [hbp]
        exact ⟨hwild, hpres⟩
      have hres : bestcompactSeg disc vd segBase = (vd, false) := by
        unfold bestcompactSeg
        rw [hseg]
        simp only
        rw [if_neg hnpf]
        rw [if_neg hhv, if_pos hkeep]
      rw [hres]
      exact ⟨rfl, hwild, rfl, rfl⟩
  · intro hincr hpool
    have hkeepN : ∀ vd1 : Vmdata, vd1.pool = vd.pool → vd1.incr ≤ vd.incr →
        ¬(vd.wild = some (prevSelfOf vd seg.sentAddr) ∧
          (vd.wordAt (prevSelfOf vd seg.sentAddr) ≤ COMPACT * vd1.incr ∨
            vd.wordAt (prevSelfOf vd seg.sentAddr) ≤ COMPACT * vd1.pool)) := by
      intro vd1 hp hi hc
      rw [hbp] at hc
      rcases hc.2 with h | h
      · have : COMPACT * vd1.incr ≤ COMPACT * vd.incr :=
          Nat.mul_le_mul_left COMPACT hi
        omega
      · rw [hp] at h
        omega
    by_cases hhv : vd.wild = some (prevSelfOf vd seg.sentAddr) ∧
        vd.wordAt (prevSelfOf vd seg.sentAddr) > COMPACT * vd.incr ∧
        vd.incr > (if disc.round = 0 then PAGESIZE else disc.round)
    · have hres : bestcompactSeg disc vd segBase =
          compactTrim disc (((vd.setIncr (vd.incr / 2)).setWild none).setPool 0) segBase
            (prevSelfOf vd seg.sentAddr) (vd.wordAt (prevSelfOf vd seg.sentAddr)) seg := by
        unfold bestcompactSeg
        rw [hseg]
        simp only
        rw [if_neg hnpf]
        rw [if_pos hhv]
        rw [if_neg (hkeepN (vd.setIncr (vd.incr / 2)) rfl (by rw [setIncr_incr]; omega))]
        rw [if_pos (by rw [hbp]; exact hwild)]
      rw [hres, hbp]
      have hf := compactTrim_frame disc (((vd.setIncr (vd.incr / 2)).setWild none).setPool 0)
        segBase bpA (vd.wordAt bpA) seg
      exact ⟨hf.1, by rw [hf.2.1]; rfl, by rw [hf.2.2]; rfl⟩
    · have hres : bestcompactSeg disc vd segBase =
          compactTrim disc ((vd.setWild none).setPool 0) segBase
            (prevSelfOf vd seg.sentAddr) (vd.wordAt (prevSelfOf vd seg.sentAddr)) seg := by
        unfold bestcompactSeg
        rw [hseg]
        simp only
        rw [if_neg hnpf]
        rw [if_neg hhv]
        rw [if_neg (hkeepN vd rfl (le_refl _))]
        rw [if_pos (by rw [hbp]; exact hwild)]
      rw [hres, hbp]
      have hf := compactTrim_frame disc ((vd.setWild none).setPool 0)
        segBase bpA (vd.wordAt bpA) seg
      exact ⟨hf.1, by rw [hf.2.1]; rfl, by rw [hf.2.2]; rfl⟩

/-- The bottom segment of `c7vd`: a busy block, then the wilderness
(free, size 64, self-reference at 1048), then the sentinel (BUSY|PFREE). -/
def c7seg : Seg := ⟨1000, [⟨33, 1000, 0⟩, ⟨64, 1000, 1048⟩, ⟨3, 1000, 0⟩]⟩

/-- A region whose bottom segment ends in a wilderness block of size 64
with `incr = 16`, so `COMPACT*incr = 128` preserves it. -/
def c7vd : Vmdata :=
  { lock := 0, incr := 16, pool := 0,
    segs := [c7seg],
    free := none, wild := some 1048, root := .nil,
    tiny := [[], [], [], [], [], [], []],
    cache := [[], [], [], [], [], [], [], []] }

theorem compact_wilderness_preservation_witness :
    (c7vd.segs.find? (fun s => s.base = 1000) = some c7seg ∧
      ISPFREE (c7vd.wordAt c7seg.sentAddr) = true ∧
      prevSelfOf c7vd c7seg.sentAddr = 1048 ∧ c7vd.wild = some 1048 ∧
      c7vd.wordAt 1048 ≤ COMPACT * c7vd.incr) ∧
    ((bestcompactSeg discNone c7vd 1000).2 = false ∧
      (bestcompactSeg discNone c7vd 1000).1.wild = some 1048) := by
  refine ⟨⟨by decide, by decide, by decide, rfl, by decide⟩, ?_⟩
  have h := (compact_wilderness_preservation discNone c7vd 1000 1048 c7seg
    (by decide) (by decide) (by decide) rfl).1 (Or.inl (by decide))
  exact ⟨h.1, h.2.1⟩

/-- Absorb the physical successor of the block at `a` into it:
`SIZE(rp) += s + sizeof(Head_t)` written as one physical edit; the
grown block keeps its tag bits and owns the successor's trailing word. -/
def absorb2 (a0 a : Nat) : List Blk → List Blk
  | [] => []
  | b :: rest =>
      if a0 = a then
        match rest with
        | b2 :: bs =>
            { word := b.word + CLRB b2.word + HEADSIZE, segw := b.segw, selfw := b2.selfw } :: bs
        | [] => [b]
      else b :: absorb2 (nextAddr a0 b) a rest

/-- Region-level `absorb2`. -/
def Vmdata.absorbNext (vd : Vmdata) (a : Nat) : Vmdata :=
  { vd with segs := vd.segs.map fun s => { s with blocks := absorb2 s.base a s.blocks } }

/-- The forward-merge loop of `bestresize` (vmbest.c lines 793-817):
pull the successor off its home — the last-freed slot, the cache (a junk
block, reclaimed with `wanted = np`), the wilderness or the free tree —
and extend the block in place; stop at a busy non-junk successor or
when the block is large enough. -/
def resizeMerge (rpA size : Nat) : Nat → Vmdata → Vmdata
  | 0, vd => vd
  | fuel + 1, vd =>
      let npA := rpA + HEADSIZE + vd.sizeAt rpA
      match vd.findBlk npA with
      | none => vd
      | some np =>
          let s := np.word
          let step : Option (Nat × Vmdata) :=
            if vd.free = some npA then some (CLRB s, vd.setFree none)
            else if ISJUNK s then
              let vd1 := (bestreclaim vd (some npA) (C_INDEX s)).1
              some (vd1.sizeAt npA, vd1)
            else if !ISBUSY s then
              some (s, if vd.wild = some npA then vd.setWild none else removeFree vd npA)
            else none
          match step with
          | none => vd
          | some (s2, vd) =>
              let vd := vd.absorbNext rpA
              let vd := vd.upd (npA + s2 + HEADSIZE) fun b => { b with word := CLRPFREE b.word }
              if vd.wordAt rpA < size then resizeMerge rpA size fuel vd else vd

/-- The wilderness-like segment growth of `bestresize` (lines 819-835):
when still short, the block abuts its segment's sentinel and the request
exceeds `incr`, ask the provider to grow the segment in place. -/
def resizeGrow (disc : Vmdisc) (vd : Vmdata) (rpA size : Nat) : Vmdata :=
  let w := vd.wordAt rpA
  if w < size ∧ vd.incr < size then
    let segb := ((vd.findBlk rpA).map Blk.segw).getD 0
    match vd.segs.find? fun s => s.base = segb with
    | none => vd
    | some seg =>
        if rpA + HEADSIZE + CLRB w = seg.sentAddr then
          let s := ROUND (size - w + HEADSIZE) vd.incr
          match disc.memf seg.base (seg.baddr - seg.base) (seg.baddr - seg.base + s) with
          | some _ =>
              let vd := vd.upd rpA fun b => { b with word := b.word + s }
              let sentA := rpA + HEADSIZE + CLRB w + s
              vd.upd sentA fun b => { b with word := BUSY, segw := seg.base }
          | none => vd
        else vd
  else vd

/-- The tail of `bestresize` (lines 838-863): split off the slack when a
whole block fits, else — if still short — honor the MOVE/COPY flags by
reallocating, or return nil; freed pieces go through the `S_CACHE`
bucket and are reclaimed at once.  `type & (VM_RSMOVE|VM_RSCOPY)` is
`type % 4` and `type & VM_RSCOPY` is `type % 2` for the modelled flag
values. -/
def resizeTail (disc : Vmdisc) (vd : Vmdata) (rpA dataA size type : Nat) :
    Option Nat × Vmdata :=
  let s := vd.wordAt rpA
  if s ≥ size + (BODYSIZE + HEADSIZE) then
    let npA := rpA + HEADSIZE + size
    let hw := size + s % 8
    let rw := CLRB s - size - HEADSIZE + BUSY + JUNK
    let vd := vd.split rpA hw rw
    let vd := vd.upd npA fun b => { b with word := SETJUNK b.word }
    let vd := vd.pushCache S_CACHE npA
    let vd := (bestreclaim vd none S_CACHE).1
    (some dataA, vd)
  else if CLRB s < size then
    if type % 4 = 0 then (none, vd)
    else
      match bestalloc disc vd size true with
      | (none, vd) => (none, vd)
      | (some newd, vd) =>
          -- VM_RSCOPY: the body bytes are caller data, not modelled
          let vd := vd.upd rpA fun b => { b with word := SETJUNK b.word }
          let vd := vd.pushCache S_CACHE rpA
          let vd := (bestreclaim vd none S_CACHE).1
          (some newd, vd)
  else (some dataA, vd)

/-- The in-place phase of `bestresize`: forward merging then segment
growth. -/
def resizeInplace (disc : Vmdisc) (vd1 : Vmdata) (rpA size : Nat) : Vmdata :=
  resizeGrow disc (resizeMerge rpA size (reclaimFuel vd1) vd1) rpA size

/-- `bestresize` (vmbest.c lines 760-874).  VM_RSZERO only clears body
bytes, which are caller data and not modelled. -/
def bestresize (disc : Vmdisc) (vd0 : Vmdata) (dataA : Option Nat)
    (size0 type : Nat) (locl : Bool) : Option Nat × Vmdata :=
  match dataA with
  | none => bestalloc disc vd0 size0 locl
  | some d =>
      if size0 = 0 then
        match bestfree disc vd0 (some d) locl with
        | (_, vd) => (none, vd)
      else
        let vd := setLock vd0 locl
        let size := roundSize size0
        let rpA := d - HEADSIZE
        let vd := if vd.sizeAt rpA < size then resizeInplace disc vd rpA size else vd
        match resizeTail disc vd rpA d size type with
        | (r, vd) => (r, clrLock vd locl)

/-- Modelled from the spec: `MULTIPLE(x,y)` of the missing header —
round `x` up to a multiple of `y`. -/
def MULTIPLE (x y : Nat) : Nat := if x % y = 0 then x else ROUND x y

/-- `bestalign` (vmbest.c lines 913-992).  The method is `VM_MTBEST`,
so the debug-header `extra` is 0. -/
def bestalign (disc : Vmdisc) (vd0 : Vmdata) (size0 align0 : Nat) (locl : Bool) :
    Option Nat × Vmdata :=
  if size0 = 0 ∨ align0 = 0 then (none, vd0)
  else
    let vd := setLock vd0 locl
    let size := roundSize size0
    let align := MULTIPLE align0 ALIGN
    let vd := (bestreclaim vd none 0).1
    let s := size + 2 * (align + HEADSIZE)
    match bestalloc disc vd s true with
    | (none, vd) => (none, clrLock vd locl)
    | (some data0, vd) =>
        let tpA := data0 - HEADSIZE
        let data1 := if data0 % align = 0 then data0 else data0 + (align - data0 % align)
        let carved : Nat × Vmdata :=
          if data1 - HEADSIZE = tpA then (data1, vd)
          else
            let data2 :=
              if data1 - HEADSIZE - tpA < HEADSIZE + BODYSIZE then data1 + align else data1
            let npA := data2 - HEADSIZE
            let s2 := npA - tpA
            let tw := vd.wordAt tpA
            let hw := SETJUNK (s2 - HEADSIZE + tw % 8)
            let rw := CLRB tw - s2 + BUSY
            let vd := vd.split tpA hw rw
            let vd := vd.pushCache (C_INDEX hw) tpA
            (data2, vd)
        match carved with
        | (dataF, vd) =>
            let npA2 := dataF - HEADSIZE
            let wnp := vd.wordAt npA2
            let slack := wnp - size
            let vd :=
              if HEADSIZE + BODYSIZE ≤ slack then
                let hw2 := size + wnp % 8
                let rw2 := CLRB (wnp - size) - HEADSIZE + BUSY + JUNK
                let vd := vd.split npA2 hw2 rw2
                vd.pushCache (C_INDEX rw2) (npA2 + HEADSIZE + size)
              else vd
            let vd := (bestreclaim vd none 0).1
            (some dataF, clrLock vd locl)

/-- A region with a busy 32-byte-body block at 1000 (its body at 1016),
a busy non-junk blocker at 1048 that stops forward merging, a junk block
of body 96 at 1096 held as the last-freed slot, and the sentinel at
1208.  `incr` is 4096, so segment growth is not attempted for a 64-byte
request. -/
def c2vd : Vmdata :=
  { lock := 0, incr := 4096, pool := 0,
    segs := [⟨1000, [⟨33, 1000, 0⟩, ⟨33, 1000, 0⟩, ⟨101, 1000, 0⟩, ⟨1, 1000, 0⟩]⟩],
    free := some 1096, wild := none, root := .nil,
    tiny := [[], [], [], [], [], [], []],
    cache := [[], [], [], [], [], [], [], []] }

/-- C2: counterexample.  `resize(1016, 64, VM_RSCOPY)` is a call on a
valid busy block (word 33: busy, not junk) whose current body 32 is
short of the rounded request 64, in-place merging and segment growth do
not reach 64 (the post-merge word is still 33), and the MOVE flag is
not set in the flags (`VM_RSCOPY / 2 % 2 = 0` is bit VM_RSMOVE of
VM_RSCOPY).  Yet the call does not return nil: line 848 tests
`!(type&(VM_RSMOVE|VM_RSCOPY))`, so COPY alone also moves the block,
and the call returns the fresh address 1112. -/
theorem resize_copy_without_move_counterexample :
    ISBUSY (33 : Nat) = true ∧ ISJUNK (33 : Nat) = false ∧
    c2vd.sizeAt 1000 < roundSize 64 ∧
    CLRB ((resizeInplace discNone (setLock c2vd false) 1000 (roundSize 64)).wordAt 1000)
        < roundSize 64 ∧
    VM_RSCOPY / 2 % 2 = 0 ∧
    (bestresize discNone c2vd (some 1016) 64 VM_RSCOPY false).1 = some 1112 := by
  decide

/-- C2 (amended): if neither MOVE nor COPY is set in the flags
(`type % 4 = 0` models `!(type & (VM_RSMOVE|VM_RSCOPY))`), a resize
call whose in-place phase falls short of the rounded request returns
nil and leaves the region exactly as the in-place phase (forward
merging plus segment growth) left it; in particular the block at the
original address is whatever block that phase produced there, so it
kept any size it gained but did not move. -/
theorem resize_nomove_nocopy_returns_nil (disc : Vmdisc) (vd : Vmdata)
    (d size0 type : Nat) (locl : Bool)
    (h0 : size0 ≠ 0)
    (hsmall : (setLock vd locl).sizeAt (d - HEADSIZE) < roundSize size0)
    (hshort : CLRB ((resizeInplace disc (setLock vd locl) (d - HEADSIZE)
        (roundSize size0)).wordAt (d - HEADSIZE)) < roundSize size0)
    (htype : type % 4 = 0) :
    bestresize disc vd (some d) size0 type locl =
      (none, clrLock (resizeInplace disc (setLock vd locl) (d - HEADSIZE)
        (roundSize size0)) locl) ∧
    ∀ b1, (resizeInplace disc (setLock vd locl) (d - HEADSIZE)
        (roundSize size0)).findBlk (d - HEADSIZE) = some b1 →
      (bestresize disc vd (some d) size0 type locl).2.findBlk (d - HEADSIZE) =
        some b1 := by
  set st1 := resizeInplace disc (setLock vd locl) (d - HEADSIZE) (roundSize size0)
    with hst1
  have hw8 : st1.wordAt (d - HEADSIZE) % 8 < 8 := Nat.mod_lt _ (by omega)
  have hclr : CLRB (st1.wordAt (d - HEADSIZE)) =
      st1.wordAt (d - HEADSIZE) - st1.wordAt (d - HEADSIZE) % 8 := rfl
  have hB : BODYSIZE = 16 := rfl
  have hH : HEADSIZE = 16 := rfl
  have htail : resizeTail disc st1 (d - HEADSIZE) d (roundSize size0) type =
      (none, st1) := by
    unfold resizeTail
    dsimp only
    rw [if_neg (by omega), if_pos hshort, if_pos htype]
  have e1 : bestresize disc vd (some d) size0 type locl = (none, clrLock st1 locl) := by
    unfold bestresize
    dsimp only
    rw [if_neg h0, if_pos hsmall, ← hst1, htail]
  refine ⟨e1, fun b1 hb1 => ?_⟩
  rw [e1]
  simpa using hb1

/-- C2 witness: a concrete no-MOVE no-COPY resize that falls short in
place returns nil and keeps the original busy block at 1000. -/
theorem resize_nomove_nocopy_returns_nil_witness :
    ((64 : Nat) ≠ 0 ∧ (0 : Nat) % 4 = 0) ∧
    (bestresize discNone c2vd (some 1016) 64 0 false).1 = none ∧
    (bestresize discNone c2vd (some 1016) 64 0 false).2.findBlk 1000 =
      some ⟨33, 1000, 0⟩ := by
  have h := resize_nomove_nocopy_returns_nil discNone c2vd 1016 64 0 false
    (by decide) (by decide) (by decide) (by decide)
  refine ⟨⟨by decide, by decide⟩, ?_, h.2 ⟨33, 1000, 0⟩ (by decide)⟩
  rw [h.1]

/-- C10: `align(size, alignment)` with a zero size or a zero alignment
returns nil at once (vmbest.c lines 922-923); the guard precedes
`SETLOCK`, so the lock is never taken and the region state is returned
untouched. -/
theorem align_zero_guard (disc : Vmdisc) (vd : Vmdata) (size0 align0 : Nat)
    (locl : Bool) (h : size0 = 0 ∨ align0 = 0) :
    bestalign disc vd size0 align0 locl = (none, vd) := by
  unfold bestalign
  rw [if_pos h]

/-- C10 witness: `align(0, 16)` on a concrete region returns nil with
the region unchanged. -/
theorem align_zero_guard_witness :
    ((0 : Nat) = 0 ∨ (16 : Nat) = 0) ∧
    bestalign discNone c1vd 0 16 false = (none, c1vd) :=
  ⟨Or.inl rfl, align_zero_guard discNone c1vd 0 16 false (Or.inl rfl)⟩

end Vmbest
